import Mathlib

/-!
# GpuOptimizationHelper: the static-mesh statistics dump

A shallow embedding of `AGpuOptimizationHelper::DumpAllStaticMeshData`
(`GpuOptimizationHelper.cpp`, `GpuOptimizationHelper.h`) and theorems about its
aggregation, filtering, sorting and reporting steps.

Machine integers are `Nat`/`Int` with the reductions of the C++ types written
out: `uint8`, `uint16`, `uint32` values are reduced modulo `2^8`, `2^16`, `2^32`,
and `int64`/`int32` arithmetic wraps in two's complement.
-/

namespace GpuOptimizationHelper

/-! ## Machine integers -/

/-- Conversion to `uint8`. -/
def toU8 (n : Nat) : Nat := n % 256

/-- Conversion to `uint16`. -/
def toU16 (n : Nat) : Nat := n % 65536

/-- Conversion of a signed value to `uint32`. -/
def toU32 (x : Int) : Nat := (x % 4294967296).toNat

/-- Two's-complement reduction to the `int32` range. -/
def toI32 (x : Int) : Int := (x + 2147483648) % 4294967296 - 2147483648

/-- Two's-complement reduction to the `int64` range. -/
def toI64 (x : Int) : Int :=
  (x + 9223372036854775808) % 18446744073709551616 - 9223372036854775808

/-- Number of decimal digits of `n` (`0` has one digit), by division by ten
at most `fuel` times. -/
def decDigitsAux : Nat → Nat → Nat
  | 0, _ => 1
  | fuel + 1, n => if n < 10 then 1 else decDigitsAux fuel (n / 10) + 1

/-- Number of decimal digits of a natural number. -/
def decDigits (n : Nat) : Nat := decDigitsAux n n

/-- Length of the text `%lld` (or `FString::FromInt`) prints for a value. -/
def fmtLen (v : Int) : Nat :=
  if v < 0 then decDigits v.natAbs + 1 else decDigits v.natAbs

/-- The engine's `FMath::Clamp(X, Min, Max)`. -/
def Clamp (X Min Max : Int) : Int := max (min X Max) Min

/-! ## Engine types the function reads -/

/-- The operations of the engine's `FName` used by the dump: its string form and
its lexical comparison. Equality of names is the equality of `N`. -/
class FNameApi (N : Type) where
  /-- Text of `Name.ToString()`. -/
  ToString : N → String
  /-- Result of `A.LexicalLess(B)`. -/
  LexicalLess : N → N → Bool

/-- One LOD of a mesh's render data: what `GetNumVertices()` and
`GetNumTriangles()` return (both `int32`). -/
structure FStaticMeshLODResources where
  NumVertices : Int
  NumTriangles : Int
  deriving DecidableEq

/-- A static mesh with render data. `LODResources` is `LOD0 :: HigherLODs`, so it
has at least one LOD. -/
structure UStaticMesh (N : Type) where
  Name : N
  MinLOD : Int
  LOD0 : FStaticMeshLODResources
  HigherLODs : List FStaticMeshLODResources
  PathName : String
  deriving DecidableEq

/-- The value of `Mesh->GetNumLODs()`. -/
def UStaticMesh.GetNumLODs {N : Type} (Mesh : UStaticMesh N) : Int :=
  (Mesh.HigherLODs.length : Int) + 1

/-- The element `Mesh->GetRenderData()->LODResources[Index]`. -/
def UStaticMesh.LODResources {N : Type} (Mesh : UStaticMesh N) (Index : Int) :
    FStaticMeshLODResources :=
  (Mesh.LOD0 :: Mesh.HigherLODs).getD Index.toNat Mesh.LOD0

/-- A component of an actor as the traversal sees it: `none` is a null component,
a component without a mesh, or a mesh without render data (all skipped). -/
abbrev UStaticMeshComponent (N : Type) := Option (UStaticMesh N)

/-- An actor: its static-mesh components, in `GetComponents` order. -/
structure AActor (N : Type) where
  Components : List (UStaticMeshComponent N)

/-- A world: its actors, in `TActorIterator` order. -/
abbrev UWorld (N : Type) := List (AActor N)

/-- The meshes the two nested loops reach, in traversal order. -/
def meshRecords {N : Type} (World : UWorld N) : List (UStaticMesh N) :=
  (World.map (fun Actor => Actor.Components.filterMap id)).flatten

/-! ## FString operations -/

/-- Whether `Sub` is a prefix of `S`, ignoring ASCII case. -/
def matchesAt : List Char → List Char → Bool
  | _, [] => true
  | [], _ :: _ => false
  | c :: cs, k :: ks => (c.toUpper == k.toUpper) && matchesAt cs ks

/-- Index of the first occurrence of `Sub` in `S` at or after offset `i`
(ignoring case), if any. -/
def findAux (Sub : List Char) : List Char → Nat → Option Nat
  | [], _ => none
  | c :: cs, i => if matchesAt (c :: cs) Sub then some i else findAux Sub cs (i + 1)

/-- The call `S.Find(Sub)` with the default arguments (ignore case, from the start);
`none` is `INDEX_NONE`. -/
def FString.Find (S Sub : String) : Option Nat := findAux Sub.data S.data 0

/-- The call `S.Mid(Start)`: the text from `Start` to the end. -/
def FString.Mid (S : String) (Start : Nat) : String := ⟨S.data.drop Start⟩

/-- The call `S.Len()`. -/
def FString.Len (S : String) : Nat := S.data.length

/-! ## The data model of the dump -/

/-- The sort keys of `ESortKey`. -/
inductive ESortKey where
  | Name | MinLOD | Vert | Tri | Count | TotalVert | TotalTri
  deriving DecidableEq

/-- The editor properties of `AGpuOptimizationHelper`, with their defaults. -/
structure AGpuOptimizationHelper where
  SortBy : ESortKey := ESortKey.TotalVert
  bSortDescending : Bool := true
  MaxMinLodCountToDump : Int := 5
  MinCountOfInstancesToDump : Nat := 1
  MinVertCountToDump : Nat := 1
  MinTotalVertCountToDump : Nat := 1
  MaxEntriesToDump : Nat := 255
  deriving DecidableEq

/-- The value ranges of the property types and of their `ClampMin`/`ClampMax`
metadata. -/
def AGpuOptimizationHelper.InRange (cfg : AGpuOptimizationHelper) : Prop :=
  -1 ≤ cfg.MaxMinLodCountToDump ∧ cfg.MaxMinLodCountToDump ≤ 8 ∧
  1 ≤ cfg.MinCountOfInstancesToDump ∧ cfg.MinCountOfInstancesToDump < 65536 ∧
  1 ≤ cfg.MinVertCountToDump ∧ cfg.MinVertCountToDump < 4294967296 ∧
  1 ≤ cfg.MinTotalVertCountToDump ∧ cfg.MinTotalVertCountToDump < 4294967296 ∧
  1 ≤ cfg.MaxEntriesToDump ∧ cfg.MaxEntriesToDump ≤ 255

/-- The aggregate entry `FMeshInfo`. -/
structure FMeshInfo where
  MinLOD : Int := 0
  VertCount : Nat := 0
  TriCount : Nat := 0
  Count : Nat := 1
  ShortPath : String
  deriving DecidableEq

/-- The method `FMeshInfo::TotalVerts`: `static_cast<int64>(VertCount) * Count`. -/
def FMeshInfo.TotalVerts (Info : FMeshInfo) : Int :=
  toI64 ((Info.VertCount : Int) * (Info.Count : Int))

/-- The method `FMeshInfo::TotalTris`: `static_cast<int64>(TriCount) * Count`. -/
def FMeshInfo.TotalTris (Info : FMeshInfo) : Int :=
  toI64 ((Info.TriCount : Int) * (Info.Count : Int))

/-- The constructor `FMeshInfo(InMinLOD, InVerts, InTris, InShortPath)`. -/
def FMeshInfo.new (InMinLOD : Int) (InVerts InTris : Nat) (InShortPath : String) : FMeshInfo :=
  { MinLOD := InMinLOD, VertCount := InVerts, TriCount := InTris, ShortPath := InShortPath }

/-- The eight column widths. -/
structure Widths where
  NameWidth : Nat := 4
  MinLODWidth : Nat := 6
  VertWidth : Nat := 5
  TriWidth : Nat := 5
  CountWidth : Nat := 5
  TotalVertWidth : Nat := 10
  TotalTriWidth : Nat := 9
  PathWidth : Nat := 10
  deriving DecidableEq

/-- The locals of `DumpAllStaticMeshData` that the traversal updates. `MeshMap`
is the `TMap` as the list of its pairs in insertion order. -/
structure DumpState (N : Type) where
  MeshMap : List (N × FMeshInfo) := []
  GlobalTotalVerts : Int := 0
  GlobalTotalTris : Int := 0
  W : Widths := {}
  deriving DecidableEq

/-! ## TMap operations -/

/-- The call `Map.Find(Key)`: the value stored under a key. -/
def TMap.Find {N : Type} [DecidableEq N] (Map : List (N × FMeshInfo)) (Key : N) :
    Option FMeshInfo :=
  match Map with
  | [] => none
  | (k, v) :: rest => if k = Key then some v else TMap.Find rest Key

/-- The call `Map.Contains(Key)`. -/
def TMap.Contains {N : Type} [DecidableEq N] (Map : List (N × FMeshInfo)) (Key : N) : Bool :=
  (TMap.Find Map Key).isSome

/-- Assignment through `Map[Key]`: the value under `Key` is replaced. -/
def TMap.Set {N : Type} [DecidableEq N] (Map : List (N × FMeshInfo)) (Key : N)
    (Value : FMeshInfo) : List (N × FMeshInfo) :=
  match Map with
  | [] => []
  | (k, v) :: rest => if k = Key then (k, Value) :: rest else (k, v) :: TMap.Set rest Key Value

/-- The call `Map.Emplace(Key, Value)`: replaces the value of an existing key, otherwise
adds the pair at the end. -/
def TMap.Emplace {N : Type} [DecidableEq N] (Map : List (N × FMeshInfo)) (Key : N)
    (Value : FMeshInfo) : List (N × FMeshInfo) :=
  if TMap.Contains Map Key then TMap.Set Map Key Value else Map ++ [(Key, Value)]

/-! ## The traversal (aggregation) -/

/-- The constant `KeyFolder`. -/
def KeyFolder : String := "Assets/MapBuildingAssets/"

/-- The local `LODToUse`: the mesh's minimum LOD clamped to its LOD range. -/
def LODToUse {N : Type} (Mesh : UStaticMesh N) : Int :=
  Clamp Mesh.MinLOD 0 (Mesh.GetNumLODs - 1)

/-- The local `VertCount` (`uint32`) of a mesh. -/
def VertCountOf {N : Type} (Mesh : UStaticMesh N) : Nat :=
  toU32 (Mesh.LODResources (LODToUse Mesh)).NumVertices

/-- The local `TriCount` (`uint32`) of a mesh. -/
def TriCountOf {N : Type} (Mesh : UStaticMesh N) : Nat :=
  toU32 (Mesh.LODResources (LODToUse Mesh)).NumTriangles

/-- The local `ShortPath` of a mesh. -/
def ShortPathOf {N : Type} (Mesh : UStaticMesh N) : String :=
  match FString.Find Mesh.PathName KeyFolder with
  | some Index => FString.Mid Mesh.PathName (Index + FString.Len KeyFolder)
  | none => Mesh.PathName

/-- The lambda `UpdateWidth`. -/
def UpdateWidth (Width : Nat) (Val : Int) : Nat := max Width (toU8 (fmtLen Val))

/-- The width updates of the branch that updates an existing entry. -/
def widthsOnUpdate (W : Widths) (Info : FMeshInfo) : Widths :=
  { W with
    CountWidth := max W.CountWidth (toU8 (fmtLen (toI32 Info.Count)))
    TotalVertWidth := UpdateWidth W.TotalVertWidth Info.TotalVerts
    TotalTriWidth := UpdateWidth W.TotalTriWidth Info.TotalTris }

/-- The width updates of the branch that creates an entry. -/
def widthsOnNew (W : Widths) (NameText : String) (MinLOD : Int) (VertCount TriCount : Nat)
    (ShortPath : String) : Widths :=
  { W with
    NameWidth := max W.NameWidth (toU8 (FString.Len NameText))
    MinLODWidth := UpdateWidth W.MinLODWidth MinLOD
    VertWidth := UpdateWidth W.VertWidth VertCount
    TriWidth := UpdateWidth W.TriWidth TriCount
    TotalVertWidth := max W.TotalVertWidth (UpdateWidth W.VertWidth VertCount)
    TotalTriWidth := max W.TotalTriWidth (UpdateWidth W.TriWidth TriCount)
    PathWidth := max W.PathWidth (toU16 (FString.Len ShortPath)) }

/-- One iteration of the inner loop body, for a component whose mesh and render
data exist (lines 63-104). -/
def foldStep {N : Type} [DecidableEq N] [FNameApi N] (cfg : AGpuOptimizationHelper)
    (S : DumpState N) (Mesh : UStaticMesh N) : DumpState N :=
  if 0 ≤ cfg.MaxMinLodCountToDump ∧ cfg.MaxMinLodCountToDump < LODToUse Mesh then S
  else if VertCountOf Mesh < cfg.MinVertCountToDump then S
  else
    let GlobalTotalVerts := toI64 (S.GlobalTotalVerts + (VertCountOf Mesh : Int))
    let GlobalTotalTris := toI64 (S.GlobalTotalTris + (TriCountOf Mesh : Int))
    match TMap.Find S.MeshMap Mesh.Name with
    | some Old =>
      let Info : FMeshInfo := { Old with Count := (Old.Count + 1) % 4294967296 }
      { MeshMap := TMap.Set S.MeshMap Mesh.Name Info
        GlobalTotalVerts := GlobalTotalVerts
        GlobalTotalTris := GlobalTotalTris
        W := widthsOnUpdate S.W Info }
    | none =>
      let Info := FMeshInfo.new Mesh.MinLOD (VertCountOf Mesh) (TriCountOf Mesh) (ShortPathOf Mesh)
      { MeshMap := TMap.Emplace S.MeshMap Mesh.Name Info
        GlobalTotalVerts := GlobalTotalVerts
        GlobalTotalTris := GlobalTotalTris
        W := widthsOnNew S.W (FNameApi.ToString Mesh.Name) Mesh.MinLOD (VertCountOf Mesh)
          (TriCountOf Mesh) (ShortPathOf Mesh) }

/-- The state after the traversal of a sequence of meshes, from the initial
locals (empty map, zero totals, header widths). -/
def foldRecords {N : Type} [DecidableEq N] [FNameApi N] (cfg : AGpuOptimizationHelper)
    (Records : List (UStaticMesh N)) : DumpState N :=
  Records.foldl (foldStep cfg) {}

/-- The per-record filters of lines 65 and 71, as a predicate on a mesh. -/
def accepted {N : Type} (cfg : AGpuOptimizationHelper) (Mesh : UStaticMesh N) : Bool :=
  !(decide (0 ≤ cfg.MaxMinLodCountToDump) && decide (cfg.MaxMinLodCountToDump < LODToUse Mesh)) &&
  !(decide (VertCountOf Mesh < cfg.MinVertCountToDump))

/-! ## Post-aggregation filter, sort and report -/

/-- The two tests of the loop that builds `MeshArray` (lines 110 and 113): an
element is added when neither `continue` is taken. -/
def keepEntry {N : Type} (cfg : AGpuOptimizationHelper) (Elem : N × FMeshInfo) : Bool :=
  !(decide (Elem.2.Count < cfg.MinCountOfInstancesToDump)) &&
  !(decide (Elem.2.TotalVerts < (cfg.MinTotalVertCountToDump : Int)))

/-- The array `MeshArray` before sorting: the elements of the map, in iteration
order, that pass both tests. -/
def MeshArrayOf {N : Type} (cfg : AGpuOptimizationHelper) (MeshMap : List (N × FMeshInfo)) :
    List (N × FMeshInfo) :=
  MeshMap.filter (keepEntry cfg)

/-- The lambda `GetKey`; the `default` case returns `0`. -/
def GetKey {N : Type} (cfg : AGpuOptimizationHelper) (Elem : N × FMeshInfo) : Int :=
  match cfg.SortBy with
  | ESortKey.Vert => (Elem.2.VertCount : Int)
  | ESortKey.Tri => (Elem.2.TriCount : Int)
  | ESortKey.Count => (Elem.2.Count : Int)
  | ESortKey.TotalVert => Elem.2.TotalVerts
  | ESortKey.TotalTri => Elem.2.TotalTris
  | ESortKey.MinLOD => Elem.2.MinLOD
  | ESortKey.Name => 0

/-- The lambda `SortFunc`. -/
def SortFunc {N : Type} [FNameApi N] (cfg : AGpuOptimizationHelper) (A B : N × FMeshInfo) :
    Bool :=
  if cfg.SortBy = ESortKey.Name then
    let bResult := FNameApi.LexicalLess A.1 B.1
    if cfg.bSortDescending then !bResult else bResult
  else
    let KeyA := GetKey cfg A
    let KeyB := GetKey cfg B
    if cfg.bSortDescending then decide (KeyB < KeyA) else decide (KeyA < KeyB)

/-- The elements printed by the row loop: `Dumped` is the `uint8` counter
`EntriesDumped` on entry. -/
def dumpRows {α : Type} (MaxEntriesToDump : Nat) : Nat → List α → List α
  | _, [] => []
  | Dumped, Elem :: Rest =>
    Elem :: (if MaxEntriesToDump ≤ toU8 (Dumped + 1) then []
             else dumpRows MaxEntriesToDump (toU8 (Dumped + 1)) Rest)

/-- The lines the function logs. -/
inductive LogLine (N : Type) where
  | Banner : LogLine N
  | WorldInvalid : LogLine N
  | Header : Widths → LogLine N
  | Row : Widths → N × FMeshInfo → LogLine N
  | Summary : Int → Int → LogLine N
  deriving DecidableEq

/-- Whether a line is logged at `Error` verbosity (the others are `Warning`). -/
def LogLine.isError {N : Type} : LogLine N → Bool
  | LogLine.WorldInvalid => true
  | _ => false

/-- Whether a line is the global-totals line. -/
def LogLine.isSummary {N : Type} : LogLine N → Bool
  | LogLine.Summary _ _ => true
  | _ => false

/-- The function `AGpuOptimizationHelper::DumpAllStaticMeshData`: the lines logged for a
configuration and the result of `GetWorld()`. The engine routine behind
`MeshArray.Sort` is the parameter `ArraySort`. -/
def DumpAllStaticMeshData {N : Type} [DecidableEq N] [FNameApi N]
    (ArraySort : (N × FMeshInfo → N × FMeshInfo → Bool) → List (N × FMeshInfo) →
      List (N × FMeshInfo))
    (cfg : AGpuOptimizationHelper) (GetWorld : Option (UWorld N)) : List (LogLine N) :=
  LogLine.Banner ::
    match GetWorld with
    | none => [LogLine.WorldInvalid]
    | some World =>
      let S := foldRecords cfg (meshRecords World)
      let MeshArray := ArraySort (SortFunc cfg) (MeshArrayOf cfg S.MeshMap)
      LogLine.Header S.W ::
        ((dumpRows cfg.MaxEntriesToDump 0 MeshArray).map (LogLine.Row S.W) ++
          [LogLine.Summary S.GlobalTotalVerts S.GlobalTotalTris])

/-! ## Reference notions used to state the properties -/

/-- The accepted records of a sequence that carry a given name. -/
def acceptedNamed {N : Type} [DecidableEq N] (cfg : AGpuOptimizationHelper)
    (Records : List (UStaticMesh N)) (Name : N) : List (UStaticMesh N) :=
  Records.filter (fun Mesh => accepted cfg Mesh && decide (Mesh.Name = Name))

/-- Sum of the vertex counts of a sequence of meshes. -/
def sumVerts {N : Type} (Records : List (UStaticMesh N)) : Nat :=
  (Records.map VertCountOf).sum

/-- Sum of the triangle counts of a sequence of meshes. -/
def sumTris {N : Type} (Records : List (UStaticMesh N)) : Nat :=
  (Records.map TriCountOf).sum

/-- The entry the traversal holds for a name, given the accepted records of that
name in traversal order: the fields of the first one and the wrapped count. -/
def aggregateOf {N : Type} : List (UStaticMesh N) → Option FMeshInfo
  | [] => none
  | First :: Rest =>
    some { MinLOD := First.MinLOD, VertCount := VertCountOf First, TriCount := TriCountOf First,
           Count := (Rest.length + 1) % 4294967296, ShortPath := ShortPathOf First }

/-- Lexicographic comparison of two texts by character code. -/
def lexLess : List Char → List Char → Bool
  | _, [] => false
  | [], _ :: _ => true
  | a :: as, b :: bs =>
    if a.toNat < b.toNat then true
    else if b.toNat < a.toNat then false
    else lexLess as bs

/-- Names given as their text, for the scenarios: two names are equal when their
texts are, and they are compared lexicographically. -/
instance : FNameApi String where
  ToString := id
  LexicalLess := fun A B => lexLess A.data B.data

/-! ## The engine's array sort -/

/-- A strict weak ordering, the kind of predicate the engine's sort routines
are specified for. -/
structure StrictWeakOrdering {α : Type} (Pred : α → α → Bool) : Prop where
  irrefl : ∀ A, Pred A A = false
  trans : ∀ A B C, Pred A B = true → Pred B C = true → Pred A C = true
  incomp : ∀ A B C, Pred A B = false → Pred B A = false → Pred B C = false →
    Pred C B = false → Pred A C = false

/-- The contract of the engine's `TArray::Sort(Predicate)`, an unstable sort:
the result is a rearrangement of the array, and for a strict weak ordering no
element is ordered before an element that precedes it. Nothing is promised
about the relative order of elements neither of which is ordered before the
other. -/
structure IsArraySort {α : Type} (ArraySort : (α → α → Bool) → List α → List α) :
    Prop where
  perm : ∀ Pred Array, (ArraySort Pred Array).Perm Array
  sorted : ∀ Pred Array, StrictWeakOrdering Pred →
    (ArraySort Pred Array).Pairwise (fun A B => Pred B A = false)

/-- The inner `for` loop of the short-range branch of the engine's introsort:
`Max` starts at the first element and moves to every later item that the
predicate orders after it. The range is returned split into the elements
before the selected one, the selected one, and the elements after it. -/
def selectMax {α : Type} (Pred : α → α → Bool) : List α → α → List α → List α →
    List α × α × List α
  | Before, Max, After, [] => (Before, Max, After)
  | Before, Max, After, Item :: Rest =>
    if Pred Max Item then selectMax Pred (Before ++ Max :: After) Item [] Rest
    else selectMax Pred Before Max (After ++ [Item]) Rest

/-- The exchange `Swap(*Max, *Current.Max--)`: the selected element goes to the
end of the range and the last element takes its place; returned are the
shortened range and the element now behind it. -/
def swapToEnd {α : Type} : List α × α × List α → List α × α
  | (Before, Max, After) =>
    match After.getLast? with
    | none => (Before, Max)
    | some Last => (Before ++ Last :: After.dropLast, Max)

/-- The outer `while` loop of the short-range branch, run at most `fuel` times. -/
def selectionLoop {α : Type} (Pred : α → α → Bool) : Nat → List α → List α
  | 0, Range => Range
  | _ + 1, [] => []
  | fuel + 1, First :: Rest =>
    selectionLoop Pred fuel (swapToEnd (selectMax Pred [] First [] Rest)).1 ++
      [(swapToEnd (selectMax Pred [] First [] Rest)).2]

/-- The loop the engine's introsort (behind `TArray::Sort`) runs on a range of
at most eight elements, applied to a whole array. -/
def ShortRangeSort {α : Type} (Pred : α → α → Bool) (Array : List α) : List α :=
  selectionLoop Pred Array.length Array

/-- Whether two elements have equal sort keys under the configured key. -/
def sameKey {N : Type} [DecidableEq N] (cfg : AGpuOptimizationHelper) (A B : N × FMeshInfo) :
    Bool :=
  if cfg.SortBy = ESortKey.Name then decide (A.1 = B.1) else decide (GetKey cfg A = GetKey cfg B)

/-- Stability of the sort step for a sort routine: two elements with equal sort
keys, the first before the second in the array, are in that order after the
sort. -/
def StableSortStep {N : Type} [DecidableEq N] [FNameApi N]
    (ArraySort : (N × FMeshInfo → N × FMeshInfo → Bool) → List (N × FMeshInfo) →
      List (N × FMeshInfo)) : Prop :=
  ∀ (cfg : AGpuOptimizationHelper) (MeshArray : List (N × FMeshInfo)) (A B : N × FMeshInfo),
    sameKey cfg A B = true → [A, B].Sublist MeshArray →
      [A, B].Sublist (ArraySort (SortFunc cfg) MeshArray)

/-! ## Scenario data -/

/-- The mesh of the scenarios: `Rock_A` with one LOD of 100 vertices and 50
triangles, minimum LOD 0. -/
def rockA : UStaticMesh String :=
  { Name := "Rock_A", MinLOD := 0, LOD0 := ⟨100, 50⟩, HigherLODs := [],
    PathName := "/Game/Assets/MapBuildingAssets/Rocks/Rock_A.Rock_A" }

/-- The entry three records of `rockA` aggregate to. -/
def rockAEntry : FMeshInfo :=
  { MinLOD := 0, VertCount := 100, TriCount := 50, Count := 3, ShortPath := "Rocks/Rock_A.Rock_A" }

/-- A mesh with nine LODs whose minimum LOD is 8; LOD 8 has 40 vertices. -/
def lod8Mesh : UStaticMesh String :=
  { Name := "Far_Tree", MinLOD := 8, LOD0 := ⟨5000, 2500⟩,
    HigherLODs := [⟨4000, 2000⟩, ⟨3000, 1500⟩, ⟨2000, 1000⟩, ⟨1000, 500⟩,
      ⟨500, 250⟩, ⟨200, 100⟩, ⟨100, 50⟩, ⟨40, 20⟩],
    PathName := "/Game/Trees/Far_Tree.Far_Tree" }

/-- A sort routine used where the routine does not matter: it returns its input. -/
def keepOrder {N : Type} (_ : N × FMeshInfo → N × FMeshInfo → Bool)
    (Array : List (N × FMeshInfo)) : List (N × FMeshInfo) := Array

/-- A world with one actor holding two `Rock_A` components and a null one. -/
def rockWorld : UWorld String := [{ Components := [some rockA, none, some rockA] }]

/-- An entry whose vertex count and instance count are both `2^32 - 1`. -/
def saturatedEntry : FMeshInfo :=
  { MinLOD := 0, VertCount := 4294967295, TriCount := 4294967295, Count := 4294967295,
    ShortPath := "" }

/-- A second placement of `Rock_A` whose LOD data, minimum LOD and path differ
from those of the first. -/
def rockAVariant : UStaticMesh String :=
  { Name := "Rock_A", MinLOD := 1, LOD0 := ⟨900, 700⟩, HigherLODs := [⟨64, 32⟩],
    PathName := "/Game/Other/Rock_A.Rock_A" }

/-- A mesh of another name. -/
def treeB : UStaticMesh String :=
  { Name := "Tree_B", MinLOD := 0, LOD0 := ⟨2000, 1500⟩, HigherLODs := [],
    PathName := "/Game/Trees/Tree_B.Tree_B" }

/-- A mesh with 100 vertices. -/
def smallMesh : UStaticMesh String :=
  { Name := "Pebble", MinLOD := 0, LOD0 := ⟨100, 60⟩, HigherLODs := [],
    PathName := "/Game/Assets/MapBuildingAssets/Rocks/Pebble.Pebble" }

/-- A mesh of 150 vertices: two placements total 300 vertices, as many as three
placements of `Rock_A`. -/
def treeC : UStaticMesh String :=
  { Name := "Tree_C", MinLOD := 0, LOD0 := ⟨150, 90⟩, HigherLODs := [],
    PathName := "/Game/Trees/Tree_C.Tree_C" }

/-- A world with three `Rock_A` and two `Tree_C` placements. -/
def tieWorld : UWorld String :=
  [{ Components := [some rockA, some rockA, some rockA] },
   { Components := [some treeC, some treeC] }]

/-- The `Rock_A` element of the map of `tieWorld`. -/
def rockTie : String × FMeshInfo := ("Rock_A", rockAEntry)

/-- The `Tree_C` element of the map of `tieWorld`. -/
def treeTie : String × FMeshInfo :=
  ("Tree_C", { MinLOD := 0, VertCount := 150, TriCount := 90, Count := 2,
               ShortPath := "/Game/Trees/Tree_C.Tree_C" })

/-! ## Notions for the sort, width and report claims -/

/-- Lawfulness of the engine's `FName::LexicalLess`: a strict total order on
names. -/
structure LexicalOrder (N : Type) [FNameApi N] : Prop where
  irrefl : ∀ A : N, FNameApi.LexicalLess A A = false
  trans : ∀ A B C : N, FNameApi.LexicalLess A B = true → FNameApi.LexicalLess B C = true →
    FNameApi.LexicalLess A C = true
  total : ∀ A B : N, A ≠ B →
    FNameApi.LexicalLess A B = true ∨ FNameApi.LexicalLess B A = true

/-- A sort routine whose result depends on the predicate only through its values
at pairs of different elements: it never passes one element of the array as
both arguments. The engine's introsort compares elements at two different
positions of the array only. -/
def ComparesDistinct {α : Type} (ArraySort : (α → α → Bool) → List α → List α) :
    Prop :=
  ∀ (Pred Pred' : α → α → Bool) (Array : List α), Array.Nodup →
    (∀ A ∈ Array, ∀ B ∈ Array, A ≠ B → Pred A B = Pred' A B) →
      ArraySort Pred Array = ArraySort Pred' Array

/-- The number each sort key stands for, written from the names of the keys and
not from `GetKey`: `MinLOD` is the entry's minimum LOD, `Vert` its vertex count,
`Tri` its triangle count, `Count` its instance count, `TotalVert` and `TotalTri`
its total vertices and triangles. `Name` has no number (the names themselves
are compared); it is given `0`. -/
def columnKey {N : Type} (Key : ESortKey) (Elem : N × FMeshInfo) : Int :=
  match Key with
  | ESortKey.Name => 0
  | ESortKey.MinLOD => Elem.2.MinLOD
  | ESortKey.Vert => (Elem.2.VertCount : Int)
  | ESortKey.Tri => (Elem.2.TriCount : Int)
  | ESortKey.Count => (Elem.2.Count : Int)
  | ESortKey.TotalVert => Elem.2.TotalVerts
  | ESortKey.TotalTri => Elem.2.TotalTris

/-- The order of the selected key and direction: `keyOrdered cfg A B` holds when
`A` may stand before `B`. Ascending: the key of `A` is at most that of `B`;
descending: at least. Names are compared with `LexicalLess`, the other keys as
the `int64` numbers of `columnKey`. -/
def keyOrdered {N : Type} [FNameApi N] (cfg : AGpuOptimizationHelper) (A B : N × FMeshInfo) :
    Prop :=
  if cfg.SortBy = ESortKey.Name then
    if cfg.bSortDescending then FNameApi.LexicalLess A.1 B.1 = false
    else FNameApi.LexicalLess B.1 A.1 = false
  else
    if cfg.bSortDescending then columnKey cfg.SortBy B ≤ columnKey cfg.SortBy A
    else columnKey cfg.SortBy A ≤ columnKey cfg.SortBy B

/-- Two elements have unequal keys under a sort key: different names for
`Name`, different numbers of `columnKey` for the other keys. -/
def differentKeys {N : Type} (Key : ESortKey) (A B : N × FMeshInfo) : Prop :=
  if Key = ESortKey.Name then A.1 ≠ B.1 else columnKey Key A ≠ columnKey Key B

/-- The lengths of the eight header labels of the table (lines 155-163). -/
def headerLabelLens : Widths :=
  { NameWidth := FString.Len "Mesh"
    MinLODWidth := FString.Len "MinLOD"
    VertWidth := FString.Len "Verts"
    TriWidth := FString.Len "Tris"
    CountWidth := FString.Len "Count"
    TotalVertWidth := FString.Len "TotalVerts"
    TotalTriWidth := FString.Len "TotalTris"
    PathWidth := FString.Len "Path" }

/-- The lengths of the eight values a data row prints (lines 169-177), before
padding: the name and path as text, `MinLOD`, `VertCount`, `TriCount` and
`Count` through `%d`, the totals through `%lld`. -/
def rowValueLens {N : Type} [FNameApi N] (Elem : N × FMeshInfo) : Widths :=
  { NameWidth := FString.Len (FNameApi.ToString Elem.1)
    MinLODWidth := fmtLen (toI32 Elem.2.MinLOD)
    VertWidth := fmtLen (toI32 Elem.2.VertCount)
    TriWidth := fmtLen (toI32 Elem.2.TriCount)
    CountWidth := fmtLen (toI32 Elem.2.Count)
    TotalVertWidth := fmtLen Elem.2.TotalVerts
    TotalTriWidth := fmtLen Elem.2.TotalTris
    PathWidth := FString.Len Elem.2.ShortPath }

/-- The largest of a seed and a list of lengths. -/
def widest (Seed : Nat) (Lens : List Nat) : Nat := Lens.foldr max Seed

/-- The configuration that sorts by name, descending. -/
def byNameDescending : AGpuOptimizationHelper :=
  { SortBy := ESortKey.Name, bSortDescending := true }

/-- The configuration that sorts by name, ascending. -/
def byNameAscending : AGpuOptimizationHelper :=
  { SortBy := ESortKey.Name, bSortDescending := false }

/-- The configuration that sorts by vertex count, ascending. -/
def byVertAscending : AGpuOptimizationHelper :=
  { SortBy := ESortKey.Vert, bSortDescending := false }

/-- The configuration that sorts by instance count, descending. -/
def byCountDescending : AGpuOptimizationHelper :=
  { SortBy := ESortKey.Count, bSortDescending := true }

/-- A mesh with three LODs whose minimum LOD setting is 7. -/
def minLod7Mesh : UStaticMesh String :=
  { Name := "Tower", MinLOD := 7, LOD0 := ⟨9000, 6000⟩,
    HigherLODs := [⟨3000, 2000⟩, ⟨800, 500⟩],
    PathName := "/Game/Assets/MapBuildingAssets/Props/Tower.Tower" }

/-- A mesh whose name is 300 characters long. -/
def longNameMesh : UStaticMesh String :=
  { Name := ⟨List.replicate 300 'a'⟩, MinLOD := 0, LOD0 := ⟨100, 50⟩, HigherLODs := [],
    PathName := "/Game/Props/Long.Long" }

/-- The entry of `longNameMesh`. -/
def longNameEntry : FMeshInfo :=
  { MinLOD := 0, VertCount := 100, TriCount := 50, Count := 1,
    ShortPath := "/Game/Props/Long.Long" }

/-- Whether the folder text `KeyFolder` stands at offset `Index` of a path, the
letters compared without regard to ASCII case. -/
def folderAt (Path : String) (Index : Nat) : Bool :=
  matchesAt (Path.data.drop Index) KeyFolder.data

/-- A mesh whose asset path spells the folder in lower case. -/
def lowerCasePathMesh : UStaticMesh String :=
  { Name := "Boulder", MinLOD := 0, LOD0 := ⟨100, 50⟩, HigherLODs := [],
    PathName := "/Game/assets/mapbuildingassets/Rocks/Boulder.Boulder" }

/-- What the traversal measures of an element for each column when it updates
the widths: the name and path lengths reduced to `uint8` and `uint16`, the
numbers formatted through `%lld` (the count through `FString::FromInt`) and the
length reduced to `uint8`. -/
def measuredLens {N : Type} [FNameApi N] (Elem : N × FMeshInfo) : Widths :=
  { NameWidth := toU8 (FString.Len (FNameApi.ToString Elem.1))
    MinLODWidth := toU8 (fmtLen Elem.2.MinLOD)
    VertWidth := toU8 (fmtLen Elem.2.VertCount)
    TriWidth := toU8 (fmtLen Elem.2.TriCount)
    CountWidth := toU8 (fmtLen (toI32 Elem.2.Count))
    TotalVertWidth := toU8 (fmtLen Elem.2.TotalVerts)
    TotalTriWidth := toU8 (fmtLen Elem.2.TotalTris)
    PathWidth := toU16 (FString.Len Elem.2.ShortPath) }

/-- A mesh with a long name, placed once. -/
def cliffMesh : UStaticMesh String :=
  { Name := "Cliff_Face_Overhang_Large_01", MinLOD := 0, LOD0 := ⟨7000, 4000⟩, HigherLODs := [],
    PathName := "/Game/Assets/MapBuildingAssets/Cliffs/Cliff_Face_Overhang_Large_01" }

/-- The widths a map accounts for: for each column the largest of its seed (the
initial value of the width) and the measured lengths of all elements of the
map. -/
def widthsOf {N : Type} [FNameApi N] (MeshMap : List (N × FMeshInfo)) : Widths :=
  { NameWidth := widest 4 (MeshMap.map (fun Elem => (measuredLens Elem).NameWidth))
    MinLODWidth := widest 6 (MeshMap.map (fun Elem => (measuredLens Elem).MinLODWidth))
    VertWidth := widest 5 (MeshMap.map (fun Elem => (measuredLens Elem).VertWidth))
    TriWidth := widest 5 (MeshMap.map (fun Elem => (measuredLens Elem).TriWidth))
    CountWidth := widest 5 (MeshMap.map (fun Elem => (measuredLens Elem).CountWidth))
    TotalVertWidth := widest 10 (MeshMap.map (fun Elem => (measuredLens Elem).TotalVertWidth))
    TotalTriWidth := widest 9 (MeshMap.map (fun Elem => (measuredLens Elem).TotalTriWidth))
    PathWidth := widest 10 (MeshMap.map (fun Elem => (measuredLens Elem).PathWidth)) }

/-- The widths the claim C18 describes: for each column the largest of the
header-label length and the printed lengths of the elements that survive the
post-aggregation filter. -/
def survivorWidths {N : Type} [FNameApi N] (cfg : AGpuOptimizationHelper)
    (MeshMap : List (N × FMeshInfo)) : Widths :=
  { NameWidth := widest headerLabelLens.NameWidth
      ((MeshArrayOf cfg MeshMap).map (fun Elem => (rowValueLens Elem).NameWidth))
    MinLODWidth := widest headerLabelLens.MinLODWidth
      ((MeshArrayOf cfg MeshMap).map (fun Elem => (rowValueLens Elem).MinLODWidth))
    VertWidth := widest headerLabelLens.VertWidth
      ((MeshArrayOf cfg MeshMap).map (fun Elem => (rowValueLens Elem).VertWidth))
    TriWidth := widest headerLabelLens.TriWidth
      ((MeshArrayOf cfg MeshMap).map (fun Elem => (rowValueLens Elem).TriWidth))
    CountWidth := widest headerLabelLens.CountWidth
      ((MeshArrayOf cfg MeshMap).map (fun Elem => (rowValueLens Elem).CountWidth))
    TotalVertWidth := widest headerLabelLens.TotalVertWidth
      ((MeshArrayOf cfg MeshMap).map (fun Elem => (rowValueLens Elem).TotalVertWidth))
    TotalTriWidth := widest headerLabelLens.TotalTriWidth
      ((MeshArrayOf cfg MeshMap).map (fun Elem => (rowValueLens Elem).TotalTriWidth))
    PathWidth := widest headerLabelLens.PathWidth
      ((MeshArrayOf cfg MeshMap).map (fun Elem => (rowValueLens Elem).PathWidth)) }

/-- The widths the whole map calls for: for each column the largest of its seed
(the initial value of the width, lines 40-47) and the printed lengths of that
column over all elements of the map. -/
def mapWidths {N : Type} [FNameApi N] (MeshMap : List (N × FMeshInfo)) : Widths :=
  { NameWidth := widest 4 (MeshMap.map (fun Elem => (rowValueLens Elem).NameWidth))
    MinLODWidth := widest 6 (MeshMap.map (fun Elem => (rowValueLens Elem).MinLODWidth))
    VertWidth := widest 5 (MeshMap.map (fun Elem => (rowValueLens Elem).VertWidth))
    TriWidth := widest 5 (MeshMap.map (fun Elem => (rowValueLens Elem).TriWidth))
    CountWidth := widest 5 (MeshMap.map (fun Elem => (rowValueLens Elem).CountWidth))
    TotalVertWidth := widest 10 (MeshMap.map (fun Elem => (rowValueLens Elem).TotalVertWidth))
    TotalTriWidth := widest 9 (MeshMap.map (fun Elem => (rowValueLens Elem).TotalTriWidth))
    PathWidth := widest 10 (MeshMap.map (fun Elem => (rowValueLens Elem).PathWidth)) }

/-- A mesh whose values fit the types the report gives them: the name is
shorter than 256 characters and the short path shorter than 65536 (the ranges
of the `uint8` and `uint16` widths), the minimum LOD is an `int32`, and the
vertex and triangle counts are below 2^31 (they are printed through `%d`). -/
def fitsColumns {N : Type} [FNameApi N] (Mesh : UStaticMesh N) : Prop :=
  FString.Len (FNameApi.ToString Mesh.Name) < 256 ∧
  FString.Len (ShortPathOf Mesh) < 65536 ∧
  -2147483648 ≤ Mesh.MinLOD ∧ Mesh.MinLOD < 2147483648 ∧
  VertCountOf Mesh < 2147483648 ∧ TriCountOf Mesh < 2147483648

/-- A configuration whose post-aggregation filter asks for two instances. -/
def twoInstances : AGpuOptimizationHelper := { MinCountOfInstancesToDump := 2 }

/-! ## Machine-integer facts -/

theorem toI64_add_toI64 (a b : Int) : toI64 (toI64 a + b) = toI64 (a + b) := by
  unfold toI64
  omega

theorem toI64_of_range (x : Int) (h0 : 0 ≤ x) (h1 : x < 9223372036854775808) : toI64 x = x := by
  unfold toI64
  omega

theorem toU32_lt (x : Int) : toU32 x < 4294967296 := by
  unfold toU32
  omega

theorem VertCountOf_lt {N : Type} (Mesh : UStaticMesh N) : VertCountOf Mesh < 4294967296 :=
  toU32_lt _

theorem TriCountOf_lt {N : Type} (Mesh : UStaticMesh N) : TriCountOf Mesh < 4294967296 :=
  toU32_lt _

/-! ## TMap facts -/

theorem TMap.Find_eq_none_iff {N : Type} [DecidableEq N]
    (M : List (N × FMeshInfo)) (k : N) :
    TMap.Find M k = none ↔ k ∉ M.map Prod.fst := by
  induction M with
  | nil => simp [TMap.Find]
  | cons e M ih =>
    obtain ⟨k0, v0⟩ := e
    by_cases h : k0 = k
    · simp [TMap.Find, h]
    · simp [TMap.Find, h, ih, Ne.symm h]

theorem TMap.mem_of_Find {N : Type} [DecidableEq N]
    (M : List (N × FMeshInfo)) (k : N) (v : FMeshInfo)
    (h : TMap.Find M k = some v) : (k, v) ∈ M := by
  induction M with
  | nil => simp [TMap.Find] at h
  | cons e M ih =>
    obtain ⟨k0, v0⟩ := e
    by_cases hk : k0 = k
    · simp [TMap.Find, hk] at h
      simp [hk, h]
    · simp [TMap.Find, hk] at h
      exact List.mem_cons_of_mem _ (ih h)

theorem TMap.Find_of_mem {N : Type} [DecidableEq N]
    (M : List (N × FMeshInfo)) (hnd : (M.map Prod.fst).Nodup) (k : N)
    (v : FMeshInfo) (h : (k, v) ∈ M) : TMap.Find M k = some v := by
  induction M with
  | nil => simp at h
  | cons e M ih =>
    obtain ⟨k0, v0⟩ := e
    simp only [List.map_cons, List.nodup_cons] at hnd
    by_cases hk : k0 = k
    · subst hk
      rcases List.mem_cons.1 h with h1 | h1
      · cases h1
        simp [TMap.Find]
      · exact absurd (List.mem_map_of_mem Prod.fst h1) hnd.1
    · rcases List.mem_cons.1 h with h1 | h1
      · cases h1
        exact absurd rfl hk
      · simp [TMap.Find, hk, ih hnd.2 h1]

theorem TMap.keys_Set {N : Type} [DecidableEq N]
    (M : List (N × FMeshInfo)) (k : N) (v : FMeshInfo) :
    (TMap.Set M k v).map Prod.fst = M.map Prod.fst := by
  induction M with
  | nil => simp [TMap.Set]
  | cons e M ih =>
    obtain ⟨k0, v0⟩ := e
    by_cases hk : k0 = k
    · simp [TMap.Set, hk]
    · simp [TMap.Set, hk, ih]

theorem TMap.Find_Set {N : Type} [DecidableEq N]
    (M : List (N × FMeshInfo)) (k : N) (v : FMeshInfo) (k1 : N) :
    TMap.Find (TMap.Set M k v) k1 =
      if k1 = k then (TMap.Find M k).map (fun _ => v) else TMap.Find M k1 := by
  induction M with
  | nil => simp [TMap.Set, TMap.Find]
  | cons e M ih =>
    obtain ⟨k0, v0⟩ := e
    by_cases hk : k0 = k
    · subst hk
      by_cases h1 : k1 = k0
      · simp [TMap.Set, TMap.Find, h1]
      · simp [TMap.Set, TMap.Find, h1, Ne.symm h1]
    · by_cases h1 : k1 = k
      · subst h1
        simp [TMap.Set, TMap.Find, hk, ih]
      · by_cases h2 : k0 = k1
        · simp [TMap.Set, TMap.Find, hk, h1, h2]
        · simp [TMap.Set, TMap.Find, hk, h1, h2, ih]

theorem TMap.Find_append_singleton {N : Type} [DecidableEq N]
    (M : List (N × FMeshInfo)) (k : N) (v : FMeshInfo) (k1 : N) :
    TMap.Find (M ++ [(k, v)]) k1 =
      match TMap.Find M k1 with
      | some x => some x
      | none => if k = k1 then some v else none := by
  induction M with
  | nil => simp [TMap.Find]
  | cons e M ih =>
    obtain ⟨k0, v0⟩ := e
    by_cases hk : k0 = k1
    · simp [TMap.Find, hk]
    · simp [TMap.Find, hk, ih]

theorem TMap.Emplace_of_absent {N : Type} [DecidableEq N]
    (M : List (N × FMeshInfo)) (k : N) (v : FMeshInfo)
    (h : TMap.Find M k = none) : TMap.Emplace M k v = M ++ [(k, v)] := by
  simp [TMap.Emplace, TMap.Contains, h]

/-! ## Facts about the traversal -/

theorem foldStep_of_rejected {N : Type} [DecidableEq N] [FNameApi N]
    (cfg : AGpuOptimizationHelper) (S : DumpState N)
    (Mesh : UStaticMesh N) (h : accepted cfg Mesh = false) : foldStep cfg S Mesh = S := by
  unfold accepted at h
  unfold foldStep
  by_cases h1 : 0 ≤ cfg.MaxMinLodCountToDump ∧ cfg.MaxMinLodCountToDump < LODToUse Mesh
  · simp [h1]
  · by_cases h2 : VertCountOf Mesh < cfg.MinVertCountToDump
    · simp [h2]
    · exfalso
      have h3 : ¬ (0 ≤ cfg.MaxMinLodCountToDump ∧
          cfg.MaxMinLodCountToDump < LODToUse Mesh) := h1
      simp only [Bool.and_eq_false_iff, Bool.not_eq_false_eq_eq_true, Bool.and_eq_true,
        decide_eq_true_eq] at h
      rcases h with h | h
      · exact h3 h
      · exact h2 h

theorem foldStep_of_accepted {N : Type} [DecidableEq N] [FNameApi N]
    (cfg : AGpuOptimizationHelper) (S : DumpState N)
    (Mesh : UStaticMesh N) (h : accepted cfg Mesh = true) :
    foldStep cfg S Mesh =
      match TMap.Find S.MeshMap Mesh.Name with
      | some Old =>
        { MeshMap := TMap.Set S.MeshMap Mesh.Name
            { Old with Count := (Old.Count + 1) % 4294967296 }
          GlobalTotalVerts := toI64 (S.GlobalTotalVerts + (VertCountOf Mesh : Int))
          GlobalTotalTris := toI64 (S.GlobalTotalTris + (TriCountOf Mesh : Int))
          W := widthsOnUpdate S.W { Old with Count := (Old.Count + 1) % 4294967296 } }
      | none =>
        { MeshMap := S.MeshMap ++ [(Mesh.Name, FMeshInfo.new Mesh.MinLOD (VertCountOf Mesh)
            (TriCountOf Mesh) (ShortPathOf Mesh))]
          GlobalTotalVerts := toI64 (S.GlobalTotalVerts + (VertCountOf Mesh : Int))
          GlobalTotalTris := toI64 (S.GlobalTotalTris + (TriCountOf Mesh : Int))
          W := widthsOnNew S.W (FNameApi.ToString Mesh.Name) Mesh.MinLOD (VertCountOf Mesh)
            (TriCountOf Mesh) (ShortPathOf Mesh) } := by
  unfold accepted at h
  simp only [Bool.and_eq_true, Bool.not_eq_true_eq_eq_false, Bool.and_eq_false_iff,
    decide_eq_false_iff_not, Bool.not_eq_eq_eq_not, Bool.not_true] at h
  have h1 : ¬ (0 ≤ cfg.MaxMinLodCountToDump ∧ cfg.MaxMinLodCountToDump < LODToUse Mesh) := by
    intro hc
    rcases h.1 with h3 | h3
    · exact h3 hc.1
    · exact h3 hc.2
  have h2 : ¬ VertCountOf Mesh < cfg.MinVertCountToDump := h.2
  unfold foldStep
  rw [if_neg h1, if_neg h2]
  cases hf : TMap.Find S.MeshMap Mesh.Name with
  | none => simp [TMap.Emplace_of_absent _ _ _ hf]
  | some Old => simp

theorem foldRecords_append_singleton {N : Type} [DecidableEq N] [FNameApi N]
    (cfg : AGpuOptimizationHelper)
    (Records : List (UStaticMesh N)) (Mesh : UStaticMesh N) :
    foldRecords cfg (Records ++ [Mesh]) = foldStep cfg (foldRecords cfg Records) Mesh := by
  simp [foldRecords, List.foldl_append]

theorem acceptedNamed_append_singleton {N : Type} [DecidableEq N]
    (cfg : AGpuOptimizationHelper)
    (Records : List (UStaticMesh N)) (Mesh : UStaticMesh N) (Name : N) :
    acceptedNamed cfg (Records ++ [Mesh]) Name =
      acceptedNamed cfg Records Name ++
        (if accepted cfg Mesh = true ∧ Mesh.Name = Name then [Mesh] else []) := by
  unfold acceptedNamed
  rw [List.filter_append]
  congr 1
  by_cases h : accepted cfg Mesh = true ∧ Mesh.Name = Name
  · simp [h, List.filter_cons]
  · rw [if_neg h]
    simp only [List.filter_cons, List.filter_nil]
    have : (accepted cfg Mesh && decide (Mesh.Name = Name)) = false := by
      simpa using h
    simp [this]

theorem aggregateOf_eq_none_iff {N : Type} (L : List (UStaticMesh N)) :
    aggregateOf L = none ↔ L = [] := by
  cases L <;> simp [aggregateOf]

theorem aggregateOf_append_singleton {N : Type} (L : List (UStaticMesh N)) (Mesh : UStaticMesh N)
    (Old : FMeshInfo) (h : aggregateOf L = some Old) :
    aggregateOf (L ++ [Mesh]) = some { Old with Count := (Old.Count + 1) % 4294967296 } := by
  cases L with
  | nil => simp [aggregateOf] at h
  | cons First Rest =>
    simp only [aggregateOf, Option.some.injEq] at h
    subst h
    simp only [List.cons_append, aggregateOf, List.length_append, List.length_singleton,
      Option.some.injEq, FMeshInfo.mk.injEq, true_and, and_true]
    omega

/-- What the map holds under each name after the traversal. -/
theorem Find_foldRecords {N : Type} [DecidableEq N] [FNameApi N]
    (cfg : AGpuOptimizationHelper) (Records : List (UStaticMesh N))
    (Name : N) :
    TMap.Find (foldRecords cfg Records).MeshMap Name =
      aggregateOf (acceptedNamed cfg Records Name) := by
  induction Records using List.reverseRecOn generalizing Name with
  | nil => simp [foldRecords, acceptedNamed, aggregateOf, TMap.Find]
  | append_singleton Records Mesh ih =>
    rw [foldRecords_append_singleton, acceptedNamed_append_singleton]
    cases hacc : accepted cfg Mesh with
    | false => simp [foldStep_of_rejected cfg _ _ hacc, ih]
    | true =>
      rw [foldStep_of_accepted cfg _ _ hacc]
      cases hf : TMap.Find (foldRecords cfg Records).MeshMap Mesh.Name with
      | none =>
        simp only [TMap.Find_append_singleton]
        by_cases hn : Mesh.Name = Name
        · subst hn
          have hnil : acceptedNamed cfg Records Mesh.Name = [] := by
            rw [← aggregateOf_eq_none_iff, ← ih, hf]
          simp [hf, hnil, aggregateOf, FMeshInfo.new]
        · rw [ih Name]
          simp only [hn, and_false, if_false, List.append_nil]
          cases aggregateOf (acceptedNamed cfg Records Name) <;> simp
      | some Old =>
        simp only [TMap.Find_Set]
        by_cases hn : Name = Mesh.Name
        · subst hn
          have hold : aggregateOf (acceptedNamed cfg Records Mesh.Name) = some Old := by
            rw [← ih, hf]
          simp [hf, aggregateOf_append_singleton _ _ _ hold]
        · have hn2 : ¬ Mesh.Name = Name := fun h => hn h.symm
          simp [hn, hn2, ih]

/-- The keys of the map are pairwise distinct after the traversal. -/
theorem nodup_keys_foldRecords {N : Type} [DecidableEq N] [FNameApi N]
    (cfg : AGpuOptimizationHelper) (Records : List (UStaticMesh N)) :
    ((foldRecords cfg Records).MeshMap.map Prod.fst).Nodup := by
  induction Records using List.reverseRecOn with
  | nil => simp [foldRecords]
  | append_singleton Records Mesh ih =>
    rw [foldRecords_append_singleton]
    cases hacc : accepted cfg Mesh with
    | false => simpa [foldStep_of_rejected cfg _ _ hacc] using ih
    | true =>
      rw [foldStep_of_accepted cfg _ _ hacc]
      cases hf : TMap.Find (foldRecords cfg Records).MeshMap Mesh.Name with
      | none =>
        have hnot := (TMap.Find_eq_none_iff _ _).1 hf
        simp only [List.map_append, List.map_cons, List.map_nil]
        exact List.Nodup.append ih (List.nodup_singleton _) (by simpa using hnot)
      | some Old => simpa [TMap.keys_Set] using ih

/-- The accumulated totals after the traversal, as wrapped sums. -/
theorem GlobalTotals_foldRecords {N : Type} [DecidableEq N] [FNameApi N]
    (cfg : AGpuOptimizationHelper)
    (Records : List (UStaticMesh N)) :
    (foldRecords cfg Records).GlobalTotalVerts =
        toI64 (sumVerts (Records.filter (accepted cfg)) : Nat) ∧
      (foldRecords cfg Records).GlobalTotalTris =
        toI64 (sumTris (Records.filter (accepted cfg)) : Nat) := by
  induction Records using List.reverseRecOn with
  | nil => simp [foldRecords, sumVerts, sumTris, toI64]
  | append_singleton Records Mesh ih =>
    rw [foldRecords_append_singleton]
    cases hacc : accepted cfg Mesh with
    | false => simpa [foldStep_of_rejected cfg _ _ hacc, List.filter_append, hacc] using ih
    | true =>
      rw [foldStep_of_accepted cfg _ _ hacc]
      have hv : sumVerts ((Records ++ [Mesh]).filter (accepted cfg)) =
          sumVerts (Records.filter (accepted cfg)) + VertCountOf Mesh := by
        simp [sumVerts, List.filter_append, hacc]
      have ht : sumTris ((Records ++ [Mesh]).filter (accepted cfg)) =
          sumTris (Records.filter (accepted cfg)) + TriCountOf Mesh := by
        simp [sumTris, List.filter_append, hacc]
      rw [hv, ht]
      cases hf : TMap.Find (foldRecords cfg Records).MeshMap Mesh.Name <;>
        simp only [ih.1, ih.2, toI64_add_toI64, Nat.cast_add, and_self]

theorem sumVerts_le {N : Type} (Records : List (UStaticMesh N)) :
    sumVerts Records ≤ Records.length * 4294967295 := by
  induction Records with
  | nil => simp [sumVerts]
  | cons Mesh Rest ih =>
    have := VertCountOf_lt Mesh
    simp only [sumVerts, List.map_cons, List.sum_cons, List.length_cons] at ih ⊢
    omega

theorem sumTris_le {N : Type} (Records : List (UStaticMesh N)) :
    sumTris Records ≤ Records.length * 4294967295 := by
  induction Records with
  | nil => simp [sumTris]
  | cons Mesh Rest ih =>
    have := TriCountOf_lt Mesh
    simp only [sumTris, List.map_cons, List.sum_cons, List.length_cons] at ih ⊢
    omega

/-- Every pair in the map after the traversal is the aggregate of the accepted
records of its name, of which there is at least one. -/
theorem mem_MeshMap_foldRecords {N : Type} [DecidableEq N] [FNameApi N]
    (cfg : AGpuOptimizationHelper) (Records : List (UStaticMesh N)) (Name : N) (Info : FMeshInfo)
    (hmem : (Name, Info) ∈ (foldRecords cfg Records).MeshMap) :
    ∃ First Rest, acceptedNamed cfg Records Name = First :: Rest ∧
      Info = { MinLOD := First.MinLOD, VertCount := VertCountOf First,
               TriCount := TriCountOf First, Count := (Rest.length + 1) % 4294967296,
               ShortPath := ShortPathOf First } := by
  have hfind := TMap.Find_of_mem _ (nodup_keys_foldRecords cfg Records) Name Info hmem
  rw [Find_foldRecords] at hfind
  cases hL : acceptedNamed cfg Records Name with
  | nil => simp [hL, aggregateOf] at hfind
  | cons First Rest =>
    rw [hL] at hfind
    simp only [aggregateOf, Option.some.injEq] at hfind
    exact ⟨First, Rest, rfl, hfind.symm⟩

theorem acceptedNamed_length_le {N : Type} [DecidableEq N] (cfg : AGpuOptimizationHelper)
    (Records : List (UStaticMesh N)) (Name : N) :
    (acceptedNamed cfg Records Name).length ≤ Records.length :=
  List.length_filter_le _ _

theorem mem_acceptedNamed {N : Type} [DecidableEq N] (cfg : AGpuOptimizationHelper)
    (Records : List (UStaticMesh N)) (Name : N) (Mesh : UStaticMesh N) :
    Mesh ∈ acceptedNamed cfg Records Name ↔
      Mesh ∈ Records ∧ accepted cfg Mesh = true ∧ Mesh.Name = Name := by
  simp [acceptedNamed, List.mem_filter]

theorem accepted_iff_conditions {N : Type} (cfg : AGpuOptimizationHelper) (Mesh : UStaticMesh N) :
    accepted cfg Mesh = true ↔
      ¬ (0 ≤ cfg.MaxMinLodCountToDump ∧ cfg.MaxMinLodCountToDump < LODToUse Mesh) ∧
        ¬ VertCountOf Mesh < cfg.MinVertCountToDump := by
  unfold accepted
  rw [Bool.and_eq_true, Bool.not_eq_true_eq_eq_false, Bool.not_eq_true_eq_eq_false,
    decide_eq_false_iff_not, ← Bool.not_eq_true, Bool.and_eq_true, decide_eq_true_eq,
    decide_eq_true_eq]

theorem TMap.Set_ne_self {N : Type} [DecidableEq N]
    (M : List (N × FMeshInfo)) (k : N)
    (Old v : FMeshInfo) (hf : TMap.Find M k = some Old) (hne : v ≠ Old) :
    TMap.Set M k v ≠ M := by
  intro h
  have h1 := TMap.Find_Set M k v k
  rw [h, hf] at h1
  simp at h1
  exact hne h1.symm

/-- The step changes the state exactly when the record passes both filters. -/
theorem foldStep_ne_iff_accepted {N : Type} [DecidableEq N] [FNameApi N]
    (cfg : AGpuOptimizationHelper) (S : DumpState N) (Mesh : UStaticMesh N) :
    foldStep cfg S Mesh ≠ S ↔ accepted cfg Mesh = true := by
  constructor
  · intro hne
    by_contra hacc
    exact hne (foldStep_of_rejected cfg S Mesh (by simpa using hacc))
  · intro hacc hEq
    rw [foldStep_of_accepted cfg S Mesh hacc] at hEq
    have hmap := congrArg DumpState.MeshMap hEq
    cases hf : TMap.Find S.MeshMap Mesh.Name with
    | none =>
      rw [hf] at hmap
      have := congrArg List.length hmap
      simp at this
    | some Old =>
      rw [hf] at hmap
      refine TMap.Set_ne_self _ _ Old _ hf ?_ hmap
      intro hc
      have hcount := congrArg FMeshInfo.Count hc
      simp only at hcount
      omega

/-! ## The aggregation claims -/

/-- C1: after the traversal of a sequence of records (fewer than 2^31 of them, so
that the `uint32` counter cannot wrap), every entry of `MeshMap` has `Count`
equal to the number of records that passed the per-record filters and carry the
entry's name. -/
theorem count_eq_number_of_accepted_records {N : Type} [DecidableEq N] [FNameApi N]
    (cfg : AGpuOptimizationHelper) (Records : List (UStaticMesh N))
    (hlen : Records.length < 2147483648) (Name : N) (Info : FMeshInfo)
    (hmem : (Name, Info) ∈ (foldRecords cfg Records).MeshMap) :
    Info.Count = (acceptedNamed cfg Records Name).length := by
  obtain ⟨First, Rest, hL, hInfo⟩ := mem_MeshMap_foldRecords cfg Records Name Info hmem
  have hle := acceptedNamed_length_le cfg Records Name
  rw [hL] at hle ⊢
  subst hInfo
  simp only [List.length_cons] at hle ⊢
  omega

/-- Witness of C1: three accepted `Rock_A` records (100 vertices, 50 triangles,
LOD 0) give one entry with count 3, 300 total vertices and 150 total triangles. -/
theorem count_eq_number_of_accepted_records_witness :
    (foldRecords {} [rockA, rockA, rockA]).MeshMap = [("Rock_A", rockAEntry)] ∧
      rockAEntry.TotalVerts = 300 ∧ rockAEntry.TotalTris = 150 ∧
      (acceptedNamed {} [rockA, rockA, rockA] "Rock_A").length = 3 ∧
      rockAEntry.Count = (acceptedNamed {} [rockA, rockA, rockA] "Rock_A").length :=
  ⟨by decide, by decide, by decide, by decide,
    count_eq_number_of_accepted_records {} [rockA, rockA, rockA] (by decide) "Rock_A" rockAEntry
      (by decide)⟩

/-- C2: with `MaxMinLodCountToDump` in its declared range (at least -1, the
no-limit value), the per-record filter accepts a record, that is the loop body
does not skip it, exactly when (the ceiling is -1 or the LOD used does not exceed
it) and the vertex count is at least `MinVertCountToDump`. -/
theorem per_record_filter_iff {N : Type} [DecidableEq N] [FNameApi N]
    (cfg : AGpuOptimizationHelper) (S : DumpState N) (Mesh : UStaticMesh N)
    (hmin : -1 ≤ cfg.MaxMinLodCountToDump) :
    (foldStep cfg S Mesh ≠ S ↔ accepted cfg Mesh = true) ∧
      (accepted cfg Mesh = true ↔
        (cfg.MaxMinLodCountToDump = -1 ∨ LODToUse Mesh ≤ cfg.MaxMinLodCountToDump) ∧
          cfg.MinVertCountToDump ≤ VertCountOf Mesh) ∧
      (cfg.MaxMinLodCountToDump = -1 → cfg.MinVertCountToDump ≤ VertCountOf Mesh →
        accepted cfg Mesh = true) := by
  have key : accepted cfg Mesh = true ↔
      (cfg.MaxMinLodCountToDump = -1 ∨ LODToUse Mesh ≤ cfg.MaxMinLodCountToDump) ∧
        cfg.MinVertCountToDump ≤ VertCountOf Mesh := by
    rw [accepted_iff_conditions]
    constructor
    · rintro ⟨h1, h2⟩
      refine ⟨?_, by omega⟩
      by_cases h0 : 0 ≤ cfg.MaxMinLodCountToDump
      · right
        by_contra hc
        exact h1 ⟨h0, by omega⟩
      · left
        omega
    · rintro ⟨h1, h2⟩
      refine ⟨?_, by omega⟩
      rintro ⟨h3, h4⟩
      rcases h1 with h1 | h1 <;> omega
  exact ⟨foldStep_ne_iff_accepted cfg S Mesh, key, fun h1 h2 => key.2 ⟨Or.inl h1, h2⟩⟩

/-- Witness of C2: with the ceiling at -1 a record of LOD 8 is accepted. -/
theorem per_record_filter_iff_witness :
    LODToUse lod8Mesh = 8 ∧ VertCountOf lod8Mesh = 40 ∧
      accepted { MaxMinLodCountToDump := -1 } lod8Mesh = true :=
  ⟨by decide, by decide,
    (per_record_filter_iff { MaxMinLodCountToDump := -1 } {} lod8Mesh (by decide)).2.2
      (by decide) (by decide)⟩

/-- C3: for every world with fewer than 2^31 mesh records (so that the `int64`
accumulators cannot wrap), the totals in the summary line are the sums of the
vertex counts and of the triangle counts over the records accepted by the
per-record filters; they are the same for every configuration with the same
`MaxMinLodCountToDump` and `MinVertCountToDump`, whatever its other properties
and whatever the sort routine does. -/
theorem summary_totals_eq_accepted_sums {N : Type} [DecidableEq N] [FNameApi N]
    (ArraySort : (N × FMeshInfo → N × FMeshInfo → Bool) → List (N × FMeshInfo) →
      List (N × FMeshInfo))
    (cfg other : AGpuOptimizationHelper) (World : UWorld N)
    (hlen : (meshRecords World).length < 2147483648)
    (hlod : other.MaxMinLodCountToDump = cfg.MaxMinLodCountToDump)
    (hvert : other.MinVertCountToDump = cfg.MinVertCountToDump) :
    (DumpAllStaticMeshData ArraySort other (some World)).filter LogLine.isSummary =
      [LogLine.Summary (sumVerts ((meshRecords World).filter (accepted cfg)) : Nat)
        (sumTris ((meshRecords World).filter (accepted cfg)) : Nat)] := by
  have hacc : accepted other = (accepted cfg : UStaticMesh N → Bool) := by
    funext Mesh
    simp [accepted, hlod, hvert]
  have hrows : ∀ (W : Widths) (Rows : List (N × FMeshInfo)),
      (Rows.map (LogLine.Row W)).filter LogLine.isSummary = [] := by
    intro W Rows
    induction Rows with
    | nil => rfl
    | cons Elem Rest ih => simp [List.filter_cons, LogLine.isSummary, ih]
  obtain ⟨hv, ht⟩ := GlobalTotals_foldRecords other (meshRecords World)
  rw [hacc] at hv ht
  have hflen : ((meshRecords World).filter (accepted cfg)).length < 2147483648 :=
    lt_of_le_of_lt (List.length_filter_le _ _) hlen
  have hsv := sumVerts_le ((meshRecords World).filter (accepted cfg))
  have hst := sumTris_le ((meshRecords World).filter (accepted cfg))
  rw [toI64_of_range _ (by omega) (by omega)] at hv ht
  simp only [DumpAllStaticMeshData, List.filter_cons, LogLine.isSummary, List.filter_append,
    hrows, List.filter_nil, List.nil_append, hv, ht]
  simp

/-- Witness of C3: two accepted `Rock_A` records sum to 200 vertices and 100
triangles, also when the post-aggregation thresholds and the row cap change. -/
theorem summary_totals_eq_accepted_sums_witness :
    (DumpAllStaticMeshData keepOrder
        { MinCountOfInstancesToDump := 7, MinTotalVertCountToDump := 100000,
          MaxEntriesToDump := 1 } (some rockWorld)).filter LogLine.isSummary =
      [LogLine.Summary (sumVerts ((meshRecords rockWorld).filter (accepted {})) : Nat)
        (sumTris ((meshRecords rockWorld).filter (accepted {})) : Nat)] ∧
      sumVerts ((meshRecords rockWorld).filter (accepted {})) = 200 ∧
      sumTris ((meshRecords rockWorld).filter (accepted {})) = 100 :=
  ⟨summary_totals_eq_accepted_sums keepOrder {}
      { MinCountOfInstancesToDump := 7, MinTotalVertCountToDump := 100000,
        MaxEntriesToDump := 1 } rockWorld (by decide) rfl rfl,
    by decide, by decide⟩

/-- The `int64` products are exact when the count is at most 2^31. -/
theorem totals_exact (Info : FMeshInfo)
    (hv : Info.VertCount < 4294967296 ∧ Info.TriCount < 4294967296)
    (hc : Info.Count ≤ 2147483648) :
    Info.TotalVerts = (Info.VertCount : Int) * Info.Count ∧
      Info.TotalTris = (Info.TriCount : Int) * Info.Count := by
  have h1 : Info.VertCount * Info.Count ≤ 4294967295 * 2147483648 :=
    Nat.mul_le_mul (by omega) hc
  have h2 : Info.TriCount * Info.Count ≤ 4294967295 * 2147483648 :=
    Nat.mul_le_mul (by omega) hc
  have h3 : ((Info.VertCount * Info.Count : Nat) : Int) = (Info.VertCount : Int) * Info.Count :=
    Nat.cast_mul _ _
  have h4 : ((Info.TriCount * Info.Count : Nat) : Int) = (Info.TriCount : Int) * Info.Count :=
    Nat.cast_mul _ _
  unfold FMeshInfo.TotalVerts FMeshInfo.TotalTris
  constructor
  · rw [← h3]
    exact toI64_of_range _ (by omega) (by omega)
  · rw [← h4]
    exact toI64_of_range _ (by omega) (by omega)

/-- C4, as stated, fails: for `VertCount = TriCount = Count = 2^32 - 1` the
product exceeds the `int64` range and `TotalVerts()`, `TotalTris()` differ from
the mathematical products. -/
theorem total_verts_wraps_at_saturated_entry :
    saturatedEntry.VertCount < 4294967296 ∧ saturatedEntry.TriCount < 4294967296 ∧
      saturatedEntry.Count < 4294967296 ∧
      saturatedEntry.TotalVerts = -8589934591 ∧
      saturatedEntry.TotalVerts ≠ (saturatedEntry.VertCount : Int) * saturatedEntry.Count ∧
      saturatedEntry.TotalTris ≠ (saturatedEntry.TriCount : Int) * saturatedEntry.Count := by
  decide

/-- C4, amended: for every `FMeshInfo` whose `VertCount` and `TriCount` are
unsigned 32-bit values and whose `Count` is at most 2^31, `TotalVerts()` and
`TotalTris()` are the exact products with `Count`. -/
theorem totals_exact_below_two_pow_31 (Info : FMeshInfo)
    (hv : Info.VertCount < 4294967296) (ht : Info.TriCount < 4294967296)
    (hc : Info.Count ≤ 2147483648) :
    Info.TotalVerts = (Info.VertCount : Int) * Info.Count ∧
      Info.TotalTris = (Info.TriCount : Int) * Info.Count :=
  totals_exact Info ⟨hv, ht⟩ hc

/-- Witness of amended C4: the entry of three `Rock_A` records. -/
theorem totals_exact_below_two_pow_31_witness :
    rockAEntry.TotalVerts = (rockAEntry.VertCount : Int) * rockAEntry.Count ∧
      rockAEntry.TotalTris = (rockAEntry.TriCount : Int) * rockAEntry.Count :=
  totals_exact_below_two_pow_31 rockAEntry (by decide) (by decide) (by decide)

/-- C5: after the traversal the keys of `MeshMap` are pairwise distinct, and a
name is a key exactly when some record of the sequence passed the per-record
filters and carries that name. -/
theorem keys_are_the_accepted_names {N : Type} [DecidableEq N] [FNameApi N]
    (cfg : AGpuOptimizationHelper) (Records : List (UStaticMesh N)) :
    ((foldRecords cfg Records).MeshMap.map Prod.fst).Nodup ∧
      ∀ Name : N, Name ∈ (foldRecords cfg Records).MeshMap.map Prod.fst ↔
        ∃ Mesh ∈ Records, accepted cfg Mesh = true ∧ Mesh.Name = Name := by
  refine ⟨nodup_keys_foldRecords cfg Records, fun Name => ?_⟩
  have h1 := TMap.Find_eq_none_iff (foldRecords cfg Records).MeshMap Name
  rw [Find_foldRecords, aggregateOf_eq_none_iff] at h1
  constructor
  · intro hk
    have hne : acceptedNamed cfg Records Name ≠ [] := fun h => (h1.1 h) hk
    obtain ⟨Mesh, hMesh⟩ := List.exists_mem_of_ne_nil _ hne
    exact ⟨Mesh, ((mem_acceptedNamed cfg Records Name Mesh).1 hMesh).1,
      ((mem_acceptedNamed cfg Records Name Mesh).1 hMesh).2⟩
  · rintro ⟨Mesh, hmem, hacc, hname⟩
    by_contra hk
    have hnil := h1.2 hk
    have : Mesh ∈ acceptedNamed cfg Records Name :=
      (mem_acceptedNamed cfg Records Name Mesh).2 ⟨hmem, hacc, hname⟩
    rw [hnil] at this
    simp at this

/-- C6: when a record is accepted and its name already has an entry in the map
built from the records before it (fewer than 2^31), the step raises that entry's
`Count` by one and keeps its `MinLOD`, `VertCount`, `TriCount` and `ShortPath`,
which are those of the first accepted record of that name; the entries of all
other names and the order of the keys are unchanged. -/
theorem update_keeps_first_seen_fields {N : Type} [DecidableEq N] [FNameApi N]
    (cfg : AGpuOptimizationHelper) (Records : List (UStaticMesh N)) (Mesh : UStaticMesh N)
    (Old : FMeshInfo) (hlen : Records.length < 2147483648)
    (hacc : accepted cfg Mesh = true)
    (hold : TMap.Find (foldRecords cfg Records).MeshMap Mesh.Name = some Old) :
    ∃ First Rest, acceptedNamed cfg Records Mesh.Name = First :: Rest ∧
      TMap.Find (foldStep cfg (foldRecords cfg Records) Mesh).MeshMap Mesh.Name =
        some { MinLOD := First.MinLOD, VertCount := VertCountOf First,
               TriCount := TriCountOf First, Count := Old.Count + 1,
               ShortPath := ShortPathOf First } ∧
      Old.MinLOD = First.MinLOD ∧ Old.VertCount = VertCountOf First ∧
      Old.TriCount = TriCountOf First ∧ Old.ShortPath = ShortPathOf First ∧
      (∀ Name : N, Name ≠ Mesh.Name →
        TMap.Find (foldStep cfg (foldRecords cfg Records) Mesh).MeshMap Name =
          TMap.Find (foldRecords cfg Records).MeshMap Name) ∧
      (foldStep cfg (foldRecords cfg Records) Mesh).MeshMap.map Prod.fst =
        (foldRecords cfg Records).MeshMap.map Prod.fst := by
  obtain ⟨First, Rest, hL, hOld⟩ :=
    mem_MeshMap_foldRecords cfg Records Mesh.Name Old (TMap.mem_of_Find _ _ _ hold)
  have hle := acceptedNamed_length_le cfg Records Mesh.Name
  rw [hL, List.length_cons] at hle
  have hcount : Old.Count = Rest.length + 1 := by
    rw [hOld]
    simp only
    omega
  have hstep := foldStep_of_accepted cfg (foldRecords cfg Records) Mesh hacc
  rw [hold] at hstep
  refine ⟨First, Rest, hL, ?_, by rw [hOld], by rw [hOld], by rw [hOld], by rw [hOld], ?_, ?_⟩
  · rw [hstep]
    simp only [TMap.Find_Set, hold, if_true, Option.map_some']
    have hmod : (Old.Count + 1) % 4294967296 = Old.Count + 1 := by omega
    rw [hmod, hOld]
  · intro Name hne
    rw [hstep]
    simp only [TMap.Find_Set, if_neg hne]
  · rw [hstep]
    simp only [TMap.keys_Set]

/-- Witness of C6: after `Rock_A` and `Tree_B`, a differing `Rock_A` record. -/
theorem update_keeps_first_seen_fields_witness :
    ∃ First Rest, acceptedNamed {} [rockA, treeB] rockAVariant.Name = First :: Rest ∧
      TMap.Find (foldStep {} (foldRecords {} [rockA, treeB]) rockAVariant).MeshMap
          rockAVariant.Name =
        some { MinLOD := First.MinLOD, VertCount := VertCountOf First,
               TriCount := TriCountOf First, Count := (FMeshInfo.new 0 100 50
                 "Rocks/Rock_A.Rock_A").Count + 1,
               ShortPath := ShortPathOf First } ∧
      (FMeshInfo.new 0 100 50 "Rocks/Rock_A.Rock_A").MinLOD = First.MinLOD ∧
      (FMeshInfo.new 0 100 50 "Rocks/Rock_A.Rock_A").VertCount = VertCountOf First ∧
      (FMeshInfo.new 0 100 50 "Rocks/Rock_A.Rock_A").TriCount = TriCountOf First ∧
      (FMeshInfo.new 0 100 50 "Rocks/Rock_A.Rock_A").ShortPath = ShortPathOf First ∧
      (∀ Name : String, Name ≠ rockAVariant.Name →
        TMap.Find (foldStep {} (foldRecords {} [rockA, treeB]) rockAVariant).MeshMap Name =
          TMap.Find (foldRecords {} [rockA, treeB]).MeshMap Name) ∧
      (foldStep {} (foldRecords {} [rockA, treeB]) rockAVariant).MeshMap.map Prod.fst =
        (foldRecords {} [rockA, treeB]).MeshMap.map Prod.fst :=
  update_keeps_first_seen_fields {} [rockA, treeB] rockAVariant
    (FMeshInfo.new 0 100 50 "Rocks/Rock_A.Rock_A") (by decide) (by decide) (by decide)

/-- C7: for a record rejected by a per-record filter (LOD used above a
non-negative ceiling, or vertex count below `MinVertCountToDump`) the step
returns the state it was given: map, both totals and all eight widths are
unchanged; traversed alone, the record leaves the map empty. -/
theorem rejected_record_changes_nothing {N : Type} [DecidableEq N] [FNameApi N]
    (cfg : AGpuOptimizationHelper) (S : DumpState N) (Mesh : UStaticMesh N)
    (hrej : (0 ≤ cfg.MaxMinLodCountToDump ∧ cfg.MaxMinLodCountToDump < LODToUse Mesh) ∨
      VertCountOf Mesh < cfg.MinVertCountToDump) :
    foldStep cfg S Mesh = S ∧ (foldRecords cfg [Mesh]).MeshMap = [] := by
  have hacc : accepted cfg Mesh = false := by
    rw [← Bool.not_eq_true, accepted_iff_conditions]
    intro h
    rcases hrej with h1 | h1
    · exact h.1 h1
    · exact h.2 h1
  have hstep : ∀ T : DumpState N, foldStep cfg T Mesh = T :=
    fun T => foldStep_of_rejected cfg T Mesh hacc
  refine ⟨hstep S, ?_⟩
  simp [foldRecords, hstep]

/-- Witness of C7: `MinVertCountToDump = 500` and a record with 100 vertices,
met after one `Rock_A` entry exists. -/
theorem rejected_record_changes_nothing_witness :
    VertCountOf smallMesh = 100 ∧
      foldStep { MinVertCountToDump := 500 } (foldRecords {} [rockA]) smallMesh =
        foldRecords {} [rockA] ∧
      (foldRecords { MinVertCountToDump := 500 } [smallMesh]).MeshMap = [] :=
  ⟨by decide,
    rejected_record_changes_nothing { MinVertCountToDump := 500 } (foldRecords {} [rockA])
      smallMesh (Or.inr (by decide))⟩

/-- C8: for every map (pairwise distinct keys), `MeshArray` holds an element of
the map exactly when its `Count` is at least `MinCountOfInstancesToDump` and its
`TotalVerts()` is at least `MinTotalVertCountToDump`; the retained elements are
the map's own pairs in the map's order, each once. -/
theorem post_filter_retains_iff {N : Type} (cfg : AGpuOptimizationHelper)
    (MeshMap : List (N × FMeshInfo)) (hkeys : (MeshMap.map Prod.fst).Nodup) :
    (∀ Elem : N × FMeshInfo, Elem ∈ MeshArrayOf cfg MeshMap ↔
      Elem ∈ MeshMap ∧ cfg.MinCountOfInstancesToDump ≤ Elem.2.Count ∧
        (cfg.MinTotalVertCountToDump : Int) ≤ Elem.2.TotalVerts) ∧
      (MeshArrayOf cfg MeshMap).Sublist MeshMap ∧
      ((MeshArrayOf cfg MeshMap).map Prod.fst).Nodup ∧
      (MeshArrayOf cfg MeshMap).Nodup := by
  have hsub : (MeshArrayOf cfg MeshMap).Sublist MeshMap := List.filter_sublist _
  have hnd : ((MeshArrayOf cfg MeshMap).map Prod.fst).Nodup :=
    List.Nodup.sublist (List.Sublist.map Prod.fst hsub) hkeys
  refine ⟨fun Elem => ?_, hsub, hnd, List.Nodup.of_map Prod.fst hnd⟩
  simp only [MeshArrayOf, List.mem_filter, keepEntry, Bool.and_eq_true,
    Bool.not_eq_true_eq_eq_false, decide_eq_false_iff_not, not_lt]

/-- Witness of C8: with a floor of two instances, of `Rock_A` (three instances)
and `Tree_B` (one) only `Rock_A` is retained. -/
theorem post_filter_retains_iff_witness :
    MeshArrayOf { MinCountOfInstancesToDump := 2 }
        (foldRecords {} [rockA, treeB, rockA, rockA]).MeshMap = [("Rock_A", rockAEntry)] ∧
      ((MeshArrayOf { MinCountOfInstancesToDump := 2 }
        (foldRecords {} [rockA, treeB, rockA, rockA]).MeshMap).map Prod.fst).Nodup :=
  ⟨by decide,
    (post_filter_retains_iff { MinCountOfInstancesToDump := 2 }
      (foldRecords {} [rockA, treeB, rockA, rockA]).MeshMap (by decide)).2.2.1⟩

/-- C9: with the default thresholds (`MinCountOfInstancesToDump`,
`MinVertCountToDump` and `MinTotalVertCountToDump` all 1), for every sequence of
fewer than 2^31 records the post-aggregation filter removes nothing: `MeshArray`
is the whole map. -/
theorem default_thresholds_remove_nothing {N : Type} [DecidableEq N] [FNameApi N]
    (cfg : AGpuOptimizationHelper) (Records : List (UStaticMesh N))
    (hcount : cfg.MinCountOfInstancesToDump = 1) (hvert : cfg.MinVertCountToDump = 1)
    (htotal : cfg.MinTotalVertCountToDump = 1) (hlen : Records.length < 2147483648) :
    MeshArrayOf cfg (foldRecords cfg Records).MeshMap = (foldRecords cfg Records).MeshMap ∧
      ∀ Elem ∈ (foldRecords cfg Records).MeshMap,
        Elem ∈ MeshArrayOf cfg (foldRecords cfg Records).MeshMap := by
  have hall : ∀ Elem ∈ (foldRecords cfg Records).MeshMap, keepEntry cfg Elem = true := by
    rintro ⟨Name, Info⟩ hmem
    obtain ⟨First, Rest, hL, hInfo⟩ := mem_MeshMap_foldRecords cfg Records Name Info hmem
    have hle := acceptedNamed_length_le cfg Records Name
    rw [hL, List.length_cons] at hle
    have hFirst : First ∈ acceptedNamed cfg Records Name := by
      rw [hL]
      exact List.mem_cons_self _ _
    have hacc := ((mem_acceptedNamed cfg Records Name First).1 hFirst).2.1
    have hv := ((accepted_iff_conditions cfg First).1 hacc).2
    rw [hvert] at hv
    have hvlt := VertCountOf_lt First
    have hC : Info.Count = Rest.length + 1 := by
      rw [hInfo]
      simp only
      omega
    have hV : Info.VertCount = VertCountOf First := by rw [hInfo]
    have hT : Info.TriCount = TriCountOf First := by rw [hInfo]
    have htlt := TriCountOf_lt First
    have hexact := (totals_exact Info (by omega) (by omega)).1
    have hpos : 1 ≤ Info.VertCount * Info.Count := Nat.mul_pos (by omega) (by omega)
    have hcast : ((Info.VertCount * Info.Count : Nat) : Int) =
        (Info.VertCount : Int) * Info.Count := Nat.cast_mul _ _
    simp only [keepEntry, Bool.and_eq_true, Bool.not_eq_true_eq_eq_false,
      decide_eq_false_iff_not, not_lt, hcount, htotal, hexact]
    constructor
    · omega
    · rw [← hcast]
      exact_mod_cast hpos
  have heq : MeshArrayOf cfg (foldRecords cfg Records).MeshMap =
      (foldRecords cfg Records).MeshMap := List.filter_eq_self.2 hall
  refine ⟨heq, fun Elem hmem => ?_⟩
  rw [heq]
  exact hmem

/-- Witness of C9: the default configuration keeps both entries. -/
theorem default_thresholds_remove_nothing_witness :
    MeshArrayOf {} (foldRecords {} [rockA, treeB, rockA]).MeshMap =
        (foldRecords {} [rockA, treeB, rockA]).MeshMap ∧
      ∀ Elem ∈ (foldRecords {} [rockA, treeB, rockA]).MeshMap,
        Elem ∈ MeshArrayOf {} (foldRecords {} [rockA, treeB, rockA]).MeshMap :=
  default_thresholds_remove_nothing {} [rockA, treeB, rockA] rfl rfl rfl (by decide)

/-! ## Facts about the short-range sort loop -/

theorem selectMax_eq {α : Type} (Pred : α → α → Bool) (Rest : List α) :
    ∀ (Before : List α) (Max : α) (After : List α),
      (selectMax Pred Before Max After Rest).1 ++
          (selectMax Pred Before Max After Rest).2.1 ::
            (selectMax Pred Before Max After Rest).2.2 =
        Before ++ Max :: After ++ Rest := by
  induction Rest with
  | nil => intro Before Max After; simp [selectMax]
  | cons Item Rest ih =>
    intro Before Max After
    unfold selectMax
    split
    · rw [ih]; simp
    · rw [ih]; simp

theorem selectMax_max {α : Type} (Pred : α → α → Bool) (hirr : ∀ A, Pred A A = false)
    (htr : ∀ A B C, Pred A B = true → Pred B C = true → Pred A C = true) (Rest : List α) :
    ∀ (Before : List α) (Max : α) (After : List α),
      (∀ Y ∈ Before ++ Max :: After, Pred Max Y = false) →
      ∀ Y ∈ Before ++ Max :: After ++ Rest,
        Pred (selectMax Pred Before Max After Rest).2.1 Y = false := by
  induction Rest with
  | nil => intro Before Max After h Y hY; simpa [selectMax] using h Y (by simpa using hY)
  | cons Item Rest ih =>
    intro Before Max After h Y hY
    unfold selectMax
    split
    · rename_i hp
      refine ih (Before ++ Max :: After) Item [] ?_ Y (by simpa using hY)
      intro Z hZ
      simp only [List.append_assoc, List.cons_append, List.mem_append, List.mem_cons,
        List.mem_singleton, List.not_mem_nil, or_false, List.nil_append] at hZ
      have hZ2 : Z ∈ Before ++ Max :: After ∨ Z = Item := by
        simp only [List.mem_append, List.mem_cons]
        tauto
      rcases hZ2 with hZ2 | hZ2
      · cases hc : Pred Item Z with
        | false => rfl
        | true =>
          have := htr Max Item Z hp hc
          rw [h Z hZ2] at this
          exact absurd this (by simp)
      · rw [hZ2]; exact hirr Item
    · rename_i hp
      refine ih Before Max (After ++ [Item]) ?_ Y (by simpa using hY)
      intro Z hZ
      have hZ2 : Z ∈ Before ++ Max :: After ∨ Z = Item := by
        simp only [List.mem_append, List.mem_cons, List.mem_singleton, List.not_mem_nil,
          or_false] at hZ ⊢
        tauto
      rcases hZ2 with hZ2 | hZ2
      · exact h Z hZ2
      · rw [hZ2]; simpa using hp

theorem swapToEnd_perm {α : Type} (T : List α × α × List α) :
    ((swapToEnd T).1 ++ [(swapToEnd T).2]).Perm (T.1 ++ T.2.1 :: T.2.2) ∧
      (swapToEnd T).2 = T.2.1 := by
  obtain ⟨Before, Max, After⟩ := T
  cases hl : After.getLast? with
  | none =>
    have : After = [] := List.getLast?_eq_none_iff.1 hl
    simp [swapToEnd, this]
  | some Last =>
    have hA : After.dropLast ++ [Last] = After := List.dropLast_append_getLast? Last hl
    simp only [swapToEnd, hl, and_true]
    have h1 : (Before ++ Last :: After.dropLast ++ [Max]).Perm
        (Before ++ Max :: (After.dropLast ++ [Last])) := by
      simp only [List.append_assoc, List.cons_append]
      refine List.Perm.append_left Before ?_
      have h2 : (Last :: (After.dropLast ++ [Max])).Perm (Max :: Last :: After.dropLast) :=
        (List.Perm.cons Last (List.perm_append_singleton Max After.dropLast)).trans
          (List.Perm.swap _ _ _)
      refine h2.trans (List.Perm.cons Max ?_)
      exact (List.perm_append_singleton Last After.dropLast).symm
    rw [hA] at h1
    exact h1

theorem selectionLoop_perm {α : Type} (Pred : α → α → Bool) (fuel : Nat) :
    ∀ Range : List α, (selectionLoop Pred fuel Range).Perm Range := by
  induction fuel with
  | zero => intro Range; simp [selectionLoop]
  | succ fuel ih =>
    intro Range
    cases Range with
    | nil => simp [selectionLoop]
    | cons First Rest =>
      unfold selectionLoop
      have hsel := selectMax_eq Pred Rest [] First []
      have hsw := (swapToEnd_perm (selectMax Pred [] First [] Rest)).1
      rw [hsel] at hsw
      simp only [List.nil_append, List.append_nil] at hsw
      exact (List.Perm.append_right _ (ih _)).trans hsw

theorem selectionLoop_sorted {α : Type} (Pred : α → α → Bool)
    (hirr : ∀ A, Pred A A = false)
    (htr : ∀ A B C, Pred A B = true → Pred B C = true → Pred A C = true) (fuel : Nat) :
    ∀ Range : List α, Range.length ≤ fuel →
      (selectionLoop Pred fuel Range).Pairwise (fun A B => Pred B A = false) := by
  induction fuel with
  | zero =>
    intro Range hlen
    have : Range = [] := List.length_eq_zero.1 (by omega)
    simp [this, selectionLoop]
  | succ fuel ih =>
    intro Range hlen
    cases Range with
    | nil => simp [selectionLoop]
    | cons First Rest =>
      unfold selectionLoop
      have hsel := selectMax_eq Pred Rest [] First []
      have hmax := selectMax_max Pred hirr htr Rest [] First []
        (by intro Y hY; simp at hY; rw [hY]; exact hirr First)
      have hsw := swapToEnd_perm (selectMax Pred [] First [] Rest)
      rw [hsel] at hsw
      simp only [List.nil_append, List.append_nil] at hsw hmax
      have hlen2 : (swapToEnd (selectMax Pred [] First [] Rest)).1.length ≤ fuel := by
        have := hsw.1.length_eq
        simp only [List.length_append, List.length_singleton, List.length_cons] at this hlen
        omega
      rw [List.pairwise_append]
      refine ⟨ih _ hlen2, by simp, ?_⟩
      intro A hA B hB
      simp only [List.mem_singleton] at hB
      rw [hB, hsw.2]
      apply hmax
      have hA2 : A ∈ (swapToEnd (selectMax Pred [] First [] Rest)).1 :=
        (selectionLoop_perm Pred fuel _).mem_iff.1 hA
      exact hsw.1.mem_iff.1 (List.mem_append_left _ hA2)

/-- The short-range loop meets the contract of the engine's sort. -/
theorem ShortRangeSort_isArraySort {α : Type} :
    IsArraySort (ShortRangeSort : (α → α → Bool) → List α → List α) where
  perm := fun Pred Array => selectionLoop_perm Pred Array.length Array
  sorted := fun Pred Array h =>
    selectionLoop_sorted Pred h.irrefl h.trans Array.length Array (le_refl _)

/-- C10, as stated, fails: the sort step is `TArray::Sort`, an unstable sort.
With the loop the engine runs on short ranges, which meets the contract of
`TArray::Sort`, the two elements of the scenario (equal `TotalVerts`,
`SortBy = TotalVert`, descending) come out in the reverse of their pre-sort
order, in the sorted array and in the rows of the report. -/
theorem sort_step_swaps_tied_entries :
    IsArraySort (ShortRangeSort :
      (String × FMeshInfo → String × FMeshInfo → Bool) → List (String × FMeshInfo) →
        List (String × FMeshInfo)) ∧
      MeshArrayOf {} (foldRecords {} (meshRecords tieWorld)).MeshMap = [rockTie, treeTie] ∧
      rockTie.2.TotalVerts = 300 ∧ treeTie.2.TotalVerts = 300 ∧
      sameKey {} rockTie treeTie = true ∧
      ShortRangeSort (SortFunc {}) [rockTie, treeTie] = [treeTie, rockTie] ∧
      (DumpAllStaticMeshData ShortRangeSort {} (some tieWorld)).filterMap
          (fun Line => match Line with
            | LogLine.Row _ Elem => some Elem.1
            | _ => none) = ["Tree_C", "Rock_A"] ∧
      ¬ StableSortStep (ShortRangeSort :
        (String × FMeshInfo → String × FMeshInfo → Bool) → List (String × FMeshInfo) →
          List (String × FMeshInfo)) := by
  refine ⟨ShortRangeSort_isArraySort, by decide, by decide, by decide, by decide, by decide,
    by decide, ?_⟩
  intro h
  have h1 := h {} [rockTie, treeTie] rockTie treeTie (by decide) (List.Sublist.refl _)
  revert h1
  decide

/-- C10, amended: for every sort routine meeting the contract of the engine's
`TArray::Sort`, every list, sort key and direction, the elements that have the
same sort key as a given element are the same after the sort step as before it,
in some order; their relative order is not promised. -/
theorem sort_step_keeps_entries_of_each_key {N : Type} [DecidableEq N] [FNameApi N]
    (ArraySort : (N × FMeshInfo → N × FMeshInfo → Bool) → List (N × FMeshInfo) →
      List (N × FMeshInfo))
    (hsort : IsArraySort ArraySort) (cfg : AGpuOptimizationHelper)
    (MeshArray : List (N × FMeshInfo)) (A : N × FMeshInfo) :
    ((ArraySort (SortFunc cfg) MeshArray).filter (sameKey cfg A)).Perm
      (MeshArray.filter (sameKey cfg A)) :=
  List.Perm.filter _ (hsort.perm (SortFunc cfg) MeshArray)

/-- Witness of amended C10: the two tied elements of the scenario. -/
theorem sort_step_keeps_entries_of_each_key_witness :
    ((ShortRangeSort (SortFunc {}) [rockTie, treeTie]).filter (sameKey {} rockTie)).Perm
      ([rockTie, treeTie].filter (sameKey {} rockTie)) :=
  sort_step_keeps_entries_of_each_key ShortRangeSort ShortRangeSort_isArraySort {}
    [rockTie, treeTie] rockTie

/-! ## The report claims -/

theorem dumpRows_eq_take {α : Type} (MaxEntriesToDump : Nat) (hmax : MaxEntriesToDump ≤ 255)
    (Rows : List α) :
    ∀ Dumped : Nat, Dumped < MaxEntriesToDump →
      dumpRows MaxEntriesToDump Dumped Rows = Rows.take (MaxEntriesToDump - Dumped) := by
  induction Rows with
  | nil => intro Dumped _; simp [dumpRows]
  | cons Elem Rest ih =>
    intro Dumped hd
    have hu : toU8 (Dumped + 1) = Dumped + 1 := by
      unfold toU8
      omega
    have hsub : MaxEntriesToDump - Dumped = (MaxEntriesToDump - (Dumped + 1)) + 1 := by omega
    unfold dumpRows
    rw [hu, hsub, List.take_succ_cons]
    by_cases hle : MaxEntriesToDump ≤ Dumped + 1
    · have : MaxEntriesToDump - (Dumped + 1) = 0 := by omega
      simp [hle, this]
    · rw [if_neg hle, ih (Dumped + 1) (by omega)]

/-- C13: for `MaxEntriesToDump` between 1 and 255, every world and every sort
routine, the lines logged after the opening banner are one header line, one row
for each of the first `min (length of the sorted array) MaxEntriesToDump`
elements of the sorted array, in sorted order, and one summary line. -/
theorem report_is_header_rows_summary {N : Type} [DecidableEq N] [FNameApi N]
    (ArraySort : (N × FMeshInfo → N × FMeshInfo → Bool) → List (N × FMeshInfo) →
      List (N × FMeshInfo))
    (cfg : AGpuOptimizationHelper) (World : UWorld N)
    (hmin : 1 ≤ cfg.MaxEntriesToDump) (hmax : cfg.MaxEntriesToDump ≤ 255) :
    DumpAllStaticMeshData ArraySort cfg (some World) =
        LogLine.Banner ::
          (LogLine.Header (foldRecords cfg (meshRecords World)).W ::
            (((ArraySort (SortFunc cfg)
                (MeshArrayOf cfg (foldRecords cfg (meshRecords World)).MeshMap)).take
              cfg.MaxEntriesToDump).map (LogLine.Row (foldRecords cfg (meshRecords World)).W) ++
            [LogLine.Summary (foldRecords cfg (meshRecords World)).GlobalTotalVerts
              (foldRecords cfg (meshRecords World)).GlobalTotalTris])) ∧
      ((ArraySort (SortFunc cfg)
          (MeshArrayOf cfg (foldRecords cfg (meshRecords World)).MeshMap)).take
        cfg.MaxEntriesToDump).length =
        min (ArraySort (SortFunc cfg)
          (MeshArrayOf cfg (foldRecords cfg (meshRecords World)).MeshMap)).length
          cfg.MaxEntriesToDump := by
  refine ⟨?_, by simp [List.length_take, Nat.min_comm]⟩
  simp only [DumpAllStaticMeshData]
  rw [dumpRows_eq_take cfg.MaxEntriesToDump hmax _ 0 (by omega)]
  simp

/-- Witness of C13: with a cap of one row, of the two elements of `tieWorld` only
the first of the sorted array is printed. -/
theorem report_is_header_rows_summary_witness :
    DumpAllStaticMeshData ShortRangeSort { MaxEntriesToDump := 1 } (some tieWorld) =
      [LogLine.Banner,
        LogLine.Header (foldRecords { MaxEntriesToDump := 1 } (meshRecords tieWorld)).W,
        LogLine.Row (foldRecords { MaxEntriesToDump := 1 } (meshRecords tieWorld)).W treeTie,
        LogLine.Summary 600 330] := by
  rw [(report_is_header_rows_summary ShortRangeSort { MaxEntriesToDump := 1 } tieWorld
    (by decide) (by decide)).1]
  decide

/-- C16: when `GetWorld()` returns null the function logs the opening banner
(a warning) and one error-level message, and nothing else: no header, no row,
no summary. -/
theorem null_world_logs_one_error {N : Type} [DecidableEq N] [FNameApi N]
    (ArraySort : (N × FMeshInfo → N × FMeshInfo → Bool) → List (N × FMeshInfo) →
      List (N × FMeshInfo))
    (cfg : AGpuOptimizationHelper) :
    DumpAllStaticMeshData ArraySort cfg none = [LogLine.Banner, LogLine.WorldInvalid] ∧
      (DumpAllStaticMeshData ArraySort cfg none).filter LogLine.isError =
        [LogLine.WorldInvalid] ∧
      ∀ Line ∈ DumpAllStaticMeshData ArraySort cfg none,
        (∀ W, Line ≠ LogLine.Header W) ∧ (∀ W Elem, Line ≠ LogLine.Row W Elem) ∧
          (∀ V T, Line ≠ LogLine.Summary V T) := by
  refine ⟨rfl, rfl, ?_⟩
  intro Line hLine
  have h : Line = LogLine.Banner ∨ Line = LogLine.WorldInvalid := by
    simpa [DumpAllStaticMeshData] using hLine
  rcases h with h | h <;> subst h <;> simp

/-! ## The comparator claims -/

/-- For the numeric keys the descending comparator is the ascending one with
its arguments exchanged. -/
theorem SortFunc_descending_eq_swap_of_numeric {N : Type} [FNameApi N]
    (cfg : AGpuOptimizationHelper) (hkey : cfg.SortBy ≠ ESortKey.Name) (A B : N × FMeshInfo) :
    SortFunc { cfg with bSortDescending := true } A B =
      SortFunc { cfg with bSortDescending := false } B A := by
  simp [SortFunc, hkey, GetKey]

/-- C17, as stated, fails: for `SortBy = Name` and the pair of an element with
itself (or two elements of one name), the descending comparator returns `true`
on `(A, B)` while the ascending comparator returns `false` on `(B, A)`. -/
theorem name_direction_differs_on_equal_names :
    SortFunc byNameDescending rockTie rockTie = true ∧
      SortFunc byNameAscending rockTie rockTie = false ∧
      SortFunc byNameDescending rockTie rockTie ≠ SortFunc byNameAscending rockTie rockTie := by
  decide

/-- C19, as stated, fails: for `SortBy = Name`, descending, the comparator
reports an element as ordered before itself, so on all pairs it is neither
irreflexive nor asymmetric. -/
theorem name_descending_comparator_not_strict :
    SortFunc byNameDescending treeTie treeTie = true ∧
      ¬ (∀ A : String × FMeshInfo, SortFunc byNameDescending A A = false) ∧
      ¬ (∀ A B : String × FMeshInfo, SortFunc byNameDescending A B = true →
          SortFunc byNameDescending B A = false) := by
  refine ⟨by decide, fun h => ?_, fun h => ?_⟩
  · exact absurd (h treeTie) (by decide)
  · exact absurd (h treeTie treeTie (by decide)) (by decide)

/-! ## The minimum-LOD and width claims at their failing inputs -/

/-- C15 at the failing input: with the default ceiling 5, a mesh of three LODs
whose minimum LOD is 7 passes the filter (the LOD used is 2) and its entry
stores `MinLOD = 7`, above the ceiling; the row is printed. -/
theorem stored_min_lod_exceeds_ceiling :
    (0 : Int) ≤ ({} : AGpuOptimizationHelper).MaxMinLodCountToDump ∧
      LODToUse minLod7Mesh = 2 ∧ accepted {} minLod7Mesh = true ∧
      (foldRecords {} [minLod7Mesh]).MeshMap =
        [("Tower", { MinLOD := 7, VertCount := 800, TriCount := 500, Count := 1,
                     ShortPath := "Props/Tower.Tower" })] ∧
      ¬ (∀ Elem ∈ (foldRecords {} [minLod7Mesh]).MeshMap,
          Elem.2.MinLOD ≤ ({} : AGpuOptimizationHelper).MaxMinLodCountToDump) ∧
      (DumpAllStaticMeshData ShortRangeSort {}
          (some [{ Components := [some minLod7Mesh] }])).filterMap
        (fun Line => match Line with
          | LogLine.Row _ Elem => some Elem.2.MinLOD
          | _ => none) = [7] := by
  refine ⟨by decide, by decide, by decide, by decide, ?_, by decide⟩
  intro h
  exact absurd (h _ (List.mem_singleton.2 rfl)) (by decide)

set_option maxRecDepth 100000 in
/-- C14 at the failing input: for a mesh whose name has 300 characters the
`uint8` conversion leaves `NameWidth = 44`, less than the 300 characters the
row prints in that column. -/
theorem name_width_truncated_for_long_name :
    FString.Len (FNameApi.ToString longNameMesh.Name) = 300 ∧
      (foldRecords {} [longNameMesh]).W.NameWidth = 44 ∧
      (foldRecords {} [longNameMesh]).MeshMap = [(longNameMesh.Name, longNameEntry)] ∧
      MeshArrayOf {} (foldRecords {} [longNameMesh]).MeshMap =
        [(longNameMesh.Name, longNameEntry)] ∧
      (rowValueLens (longNameMesh.Name, longNameEntry)).NameWidth = 300 ∧
      (foldRecords {} [longNameMesh]).W.NameWidth <
        (rowValueLens (longNameMesh.Name, longNameEntry)).NameWidth := by
  refine ⟨by decide, by decide, by decide, by decide, by decide, by decide⟩

/-! ## The short path -/

/-- What `findAux` returns: the first offset at which the text matches, counted
from the initial index, or nothing when no offset matches. -/
theorem findAux_spec (Sub : List Char) (S : List Char) :
    ∀ k : Nat,
      match findAux Sub S k with
      | none => ∀ j, j < S.length → matchesAt (S.drop j) Sub = false
      | some r => k ≤ r ∧ r - k < S.length ∧ matchesAt (S.drop (r - k)) Sub = true ∧
          ∀ j, j < r - k → matchesAt (S.drop j) Sub = false := by
  induction S with
  | nil => intro k; simp [findAux]
  | cons c cs ih =>
    intro k
    unfold findAux
    by_cases hm : matchesAt (c :: cs) Sub = true
    · simp [hm]
    · rw [if_neg hm]
      have hm2 : matchesAt (c :: cs) Sub = false := by simpa using hm
      have h := ih (k + 1)
      cases hf : findAux Sub cs (k + 1) with
      | none =>
        rw [hf] at h
        simp only at h ⊢
        intro j hj
        cases j with
        | zero => simpa using hm2
        | succ j => simpa using h j (by simpa using hj)
      | some r =>
        rw [hf] at h
        simp only at h ⊢
        obtain ⟨h1, h2, h3, h4⟩ := h
        have hr : r - k = (r - (k + 1)) + 1 := by omega
        refine ⟨by omega, by rw [hr]; simpa using h2, by rw [hr]; simpa using h3, ?_⟩
        intro j hj
        cases j with
        | zero => simpa using hm2
        | succ j => simpa using h4 j (by omega)

/-- C20, as stated, fails: the path of `lowerCasePathMesh` does not contain the
folder text, yet the short path is not the path: the folder spelled in lower
case is matched and stripped. -/
theorem short_path_strips_lower_case_folder :
    ¬ KeyFolder.data <:+: lowerCasePathMesh.PathName.data ∧
      ShortPathOf lowerCasePathMesh = "Rocks/Boulder.Boulder" ∧
      ShortPathOf lowerCasePathMesh ≠ lowerCasePathMesh.PathName := by
  decide

/-- C20, amended: the short path is the asset path when the folder text stands
at no offset of it, letters compared without regard to ASCII case, and
otherwise the part of the path that follows the first such occurrence; it is
always a suffix of the asset path. -/
theorem short_path_is_path_after_first_match {N : Type} (Mesh : UStaticMesh N) :
    (ShortPathOf Mesh).data <:+ Mesh.PathName.data ∧
      ((∀ j, j < Mesh.PathName.data.length → folderAt Mesh.PathName j = false) →
        ShortPathOf Mesh = Mesh.PathName) ∧
      (∀ i, i < Mesh.PathName.data.length → folderAt Mesh.PathName i = true →
        (∀ j, j < i → folderAt Mesh.PathName j = false) →
          (ShortPathOf Mesh).data = Mesh.PathName.data.drop (i + KeyFolder.data.length)) := by
  have hspec := findAux_spec KeyFolder.data Mesh.PathName.data 0
  unfold ShortPathOf FString.Find
  cases hf : findAux KeyFolder.data Mesh.PathName.data 0 with
  | none =>
    rw [hf] at hspec
    simp only at hspec ⊢
    refine ⟨List.suffix_refl _, fun _ => trivial, ?_⟩
    intro i hi hm _
    have := hspec i hi
    unfold folderAt at hm
    rw [this] at hm
    exact absurd hm (by simp)
  | some r =>
    rw [hf] at hspec
    simp only [Nat.sub_zero] at hspec ⊢
    obtain ⟨_, h2, h3, h4⟩ := hspec
    refine ⟨List.drop_suffix _ _, ?_, ?_⟩
    · intro hno
      have := hno r h2
      unfold folderAt at this
      rw [h3] at this
      exact absurd this (by simp)
    · intro i hi hm hfirst
      have hir : i = r := by
        rcases Nat.lt_trichotomy i r with hlt | heq | hgt
        · have := h4 i hlt
          unfold folderAt at hm
          rw [this] at hm
          exact absurd hm (by simp)
        · exact heq
        · have := hfirst r hgt
          unfold folderAt at this
          rw [h3] at this
          exact absurd this (by simp)
      subst hir
      rfl

/-- Witness of amended C20: `Rock_A`, whose path holds the folder at offset 6. -/
theorem short_path_is_path_after_first_match_witness :
    (ShortPathOf rockA).data = rockA.PathName.data.drop (6 + KeyFolder.data.length) ∧
      ShortPathOf rockA = "Rocks/Rock_A.Rock_A" ∧
      (ShortPathOf rockA).data <:+ rockA.PathName.data :=
  ⟨(short_path_is_path_after_first_match rockA).2.2 6 (by decide) (by decide) (by decide),
    by decide, (short_path_is_path_after_first_match rockA).1⟩

/-! ## Facts about the comparator and the sorted array -/

theorem lexLess_irrefl (s : List Char) : lexLess s s = false := by
  induction s with
  | nil => rfl
  | cons a as ih => simp [lexLess, ih]

theorem Char.eq_of_toNat_eq (a b : Char) (h : a.toNat = b.toNat) : a = b := by
  apply Char.eq_of_val_eq
  apply UInt32.eq_of_val_eq
  exact Fin.eq_of_val_eq h

theorem lexLess_trans (s t u : List Char) :
    lexLess s t = true → lexLess t u = true → lexLess s u = true := by
  induction s generalizing t u with
  | nil =>
    intro h1 h2
    cases t with
    | nil => simp [lexLess] at h1
    | cons b bs =>
      cases u with
      | nil => simp [lexLess] at h2
      | cons c cs => simp [lexLess]
  | cons a as ih =>
    intro h1 h2
    cases t with
    | nil => simp [lexLess] at h1
    | cons b bs =>
      cases u with
      | nil => simp [lexLess] at h2
      | cons c cs =>
        simp only [lexLess] at h1 h2 ⊢
        by_cases hab : a.toNat < b.toNat
        · by_cases hbc : b.toNat < c.toNat
          · have : a.toNat < c.toNat := by omega
            simp [this]
          · by_cases hcb : c.toNat < b.toNat
            · simp [hbc, hcb] at h2
            · have : a.toNat < c.toNat := by omega
              simp [this]
        · by_cases hba : b.toNat < a.toNat
          · simp [hab, hba] at h1
          · simp only [hab, hba, if_false] at h1
            by_cases hbc : b.toNat < c.toNat
            · have : a.toNat < c.toNat := by omega
              simp [this]
            · by_cases hcb : c.toNat < b.toNat
              · simp [hbc, hcb] at h2
              · simp only [hbc, hcb, if_false] at h2
                have h3 : ¬ a.toNat < c.toNat := by omega
                have h4 : ¬ c.toNat < a.toNat := by omega
                simp only [h3, h4, if_false]
                exact ih bs cs h1 h2

theorem lexLess_total (s t : List Char) :
    s ≠ t → lexLess s t = true ∨ lexLess t s = true := by
  induction s generalizing t with
  | nil =>
    intro h
    cases t with
    | nil => exact absurd rfl h
    | cons b bs => left; simp [lexLess]
  | cons a as ih =>
    intro h
    cases t with
    | nil => right; simp [lexLess]
    | cons b bs =>
      simp only [lexLess]
      by_cases hab : a.toNat < b.toNat
      · left; simp [hab]
      · by_cases hba : b.toNat < a.toNat
        · right; simp [hba]
        · have heq : a = b := Char.eq_of_toNat_eq a b (by omega)
          subst heq
          have hne : as ≠ bs := fun hc => h (by rw [hc])
          simpa [hab] using ih bs hne

/-- The text stand-in for names is lawful. -/
theorem lexicalOrder_String : LexicalOrder String where
  irrefl := fun A => lexLess_irrefl A.data
  trans := fun A B C => lexLess_trans A.data B.data C.data
  total := fun A B h => lexLess_total A.data B.data (fun hc => h (String.ext hc))

theorem selectMax_congr {α : Type} (Pred Pred' : α → α → Bool) (Rest : List α) :
    ∀ (Before : List α) (Max : α) (After : List α), (Max :: Rest).Nodup →
      (∀ X ∈ Max :: Rest, ∀ Y ∈ Max :: Rest, X ≠ Y → Pred X Y = Pred' X Y) →
      selectMax Pred Before Max After Rest = selectMax Pred' Before Max After Rest := by
  induction Rest with
  | nil => intro Before Max After _ _; rfl
  | cons Item Rest ih =>
    intro Before Max After hnd hag
    have hne : Max ≠ Item := by
      intro hc
      rw [hc] at hnd
      simp at hnd
    have hp : Pred Max Item = Pred' Max Item :=
      hag Max (by simp) Item (by simp) hne
    unfold selectMax
    rw [hp]
    have hnd1 : (Item :: Rest).Nodup := (List.nodup_cons.1 hnd).2
    have hnd2 : (Max :: Rest).Nodup := by
      have h1 := List.nodup_cons.1 hnd
      have h2 := List.nodup_cons.1 h1.2
      exact List.nodup_cons.2 ⟨fun hc => h1.1 (List.mem_cons_of_mem _ hc), h2.2⟩
    split
    · exact ih _ Item [] hnd1 (fun X hX Y hY hXY =>
        hag X (List.mem_cons_of_mem _ hX) Y (List.mem_cons_of_mem _ hY) hXY)
    · refine ih _ Max _ hnd2 (fun X hX Y hY hXY => hag X ?_ Y ?_ hXY)
      · rcases List.mem_cons.1 hX with h | h
        · rw [h]; simp
        · simp [h]
      · rcases List.mem_cons.1 hY with h | h
        · rw [h]; simp
        · simp [h]

theorem selectionLoop_congr {α : Type} (Pred Pred' : α → α → Bool) (fuel : Nat) :
    ∀ Range : List α, Range.Nodup →
      (∀ X ∈ Range, ∀ Y ∈ Range, X ≠ Y → Pred X Y = Pred' X Y) →
      selectionLoop Pred fuel Range = selectionLoop Pred' fuel Range := by
  induction fuel with
  | zero => intro Range _ _; rfl
  | succ fuel ih =>
    intro Range hnd hag
    cases Range with
    | nil => rfl
    | cons First Rest =>
      unfold selectionLoop
      rw [selectMax_congr Pred Pred' Rest [] First [] hnd hag]
      have hsel := selectMax_eq Pred' Rest [] First []
      have hsw := (swapToEnd_perm (selectMax Pred' [] First [] Rest)).1
      rw [hsel] at hsw
      simp only [List.nil_append, List.append_nil] at hsw
      have hnd2 : ((swapToEnd (selectMax Pred' [] First [] Rest)).1 ++
          [(swapToEnd (selectMax Pred' [] First [] Rest)).2]).Nodup := hsw.nodup_iff.2 hnd
      have hnd3 := (List.nodup_append.1 hnd2).1
      have hmem : ∀ X ∈ (swapToEnd (selectMax Pred' [] First [] Rest)).1, X ∈ First :: Rest :=
        fun X hX => hsw.mem_iff.1 (List.mem_append_left _ hX)
      rw [ih _ hnd3 (fun X hX Y hY hXY => hag X (hmem X hX) Y (hmem Y hY) hXY)]

/-- The short-range loop never compares an element with itself. -/
theorem ShortRangeSort_comparesDistinct {α : Type} :
    ComparesDistinct (ShortRangeSort : (α → α → Bool) → List α → List α) :=
  fun Pred Pred' Array hnd hag => selectionLoop_congr Pred Pred' Array.length Array hnd hag

theorem SortFunc_numeric_strictWeak {N : Type} [FNameApi N] (cfg : AGpuOptimizationHelper)
    (hkey : cfg.SortBy ≠ ESortKey.Name) :
    StrictWeakOrdering (SortFunc cfg : N × FMeshInfo → N × FMeshInfo → Bool) := by
  cases hd : cfg.bSortDescending with
  | false =>
    refine ⟨fun A => ?_, fun A B C => ?_, fun A B C => ?_⟩ <;>
      simp only [SortFunc, hkey, hd, if_false, decide_eq_true_eq, decide_eq_false_iff_not,
        Bool.false_eq_true] <;> omega
  | true =>
    refine ⟨fun A => ?_, fun A B C => ?_, fun A B C => ?_⟩ <;>
      simp only [SortFunc, hkey, hd, if_false, if_true, decide_eq_true_eq,
        decide_eq_false_iff_not] <;> omega

theorem lexical_incomparable_eq {N : Type} [FNameApi N] (hlex : LexicalOrder N) (A B : N)
    (h1 : FNameApi.LexicalLess A B = false) (h2 : FNameApi.LexicalLess B A = false) : A = B := by
  by_contra hne
  rcases hlex.total A B hne with h | h
  · rw [h1] at h; exact absurd h (by simp)
  · rw [h2] at h; exact absurd h (by simp)

theorem lexical_strictWeak {N : Type} [FNameApi N] (hlex : LexicalOrder N) :
    StrictWeakOrdering (fun A B : N × FMeshInfo => FNameApi.LexicalLess A.1 B.1) ∧
      StrictWeakOrdering (fun A B : N × FMeshInfo => FNameApi.LexicalLess B.1 A.1) := by
  constructor
  · refine ⟨fun A => hlex.irrefl A.1, fun A B C => hlex.trans A.1 B.1 C.1, ?_⟩
    intro A B C h1 h2 h3 h4
    have e1 := lexical_incomparable_eq hlex A.1 B.1 h1 h2
    have e2 := lexical_incomparable_eq hlex B.1 C.1 h3 h4
    simp only [e1, e2]
    exact hlex.irrefl C.1
  · refine ⟨fun A => hlex.irrefl A.1, fun A B C h1 h2 => hlex.trans C.1 B.1 A.1 h2 h1, ?_⟩
    intro A B C h1 h2 h3 h4
    have e1 := lexical_incomparable_eq hlex A.1 B.1 h2 h1
    have e2 := lexical_incomparable_eq hlex B.1 C.1 h4 h3
    simp only [e1, e2]
    exact hlex.irrefl C.1

theorem eq_of_fst_eq_of_nodup_keys {N : Type} (L : List (N × FMeshInfo))
    (hkeys : (L.map Prod.fst).Nodup) (A B : N × FMeshInfo) (hA : A ∈ L) (hB : B ∈ L)
    (h : A.1 = B.1) : A = B :=
  List.inj_on_of_nodup_map hkeys hA hB h

/-- For the numeric sort keys the lambda `GetKey` returns the number the sort key
stands for. -/
theorem GetKey_eq_columnKey {N : Type} (cfg : AGpuOptimizationHelper) (Elem : N × FMeshInfo) :
    GetKey cfg Elem = columnKey cfg.SortBy Elem := by
  unfold GetKey columnKey
  cases cfg.SortBy <;> rfl

/-- After the sort step every element stands before the elements that follow it
in the order of the selected key and direction. -/
theorem sorted_pairwise_keyOrdered {N : Type} [DecidableEq N] [FNameApi N]
    (ArraySort : (N × FMeshInfo → N × FMeshInfo → Bool) → List (N × FMeshInfo) →
      List (N × FMeshInfo))
    (hsort : IsArraySort ArraySort) (hdist : ComparesDistinct ArraySort)
    (hlex : LexicalOrder N) (cfg : AGpuOptimizationHelper) (MeshArray : List (N × FMeshInfo))
    (hkeys : (MeshArray.map Prod.fst).Nodup) :
    (ArraySort (SortFunc cfg) MeshArray).Pairwise (keyOrdered cfg) := by
  by_cases hkey : cfg.SortBy = ESortKey.Name
  · cases hd : cfg.bSortDescending with
    | false =>
      have hfun : (SortFunc cfg : N × FMeshInfo → N × FMeshInfo → Bool) =
          fun A B => FNameApi.LexicalLess A.1 B.1 := by
        funext A B
        simp [SortFunc, hkey, hd]
      rw [hfun]
      refine (hsort.sorted _ MeshArray (lexical_strictWeak hlex).1).imp ?_
      intro A B h
      simpa [keyOrdered, hkey, hd] using h
    | true =>
      have hag : ∀ A ∈ MeshArray, ∀ B ∈ MeshArray, A ≠ B →
          SortFunc cfg A B = (fun X Y : N × FMeshInfo => FNameApi.LexicalLess Y.1 X.1) A B := by
        intro A hA B hB hAB
        have hne : A.1 ≠ B.1 := fun hc => hAB (eq_of_fst_eq_of_nodup_keys _ hkeys A B hA hB hc)
        simp only [SortFunc, hkey, hd, if_true]
        rcases hlex.total A.1 B.1 hne with h | h
        · have h2 : FNameApi.LexicalLess B.1 A.1 = false := by
            by_contra hc
            have := hlex.trans A.1 B.1 A.1 h (by simpa using hc)
            rw [hlex.irrefl] at this
            exact absurd this (by simp)
          simp [h, h2]
        · have h2 : FNameApi.LexicalLess A.1 B.1 = false := by
            by_contra hc
            have := hlex.trans A.1 B.1 A.1 (by simpa using hc) h
            rw [hlex.irrefl] at this
            exact absurd this (by simp)
          simp [h, h2]
      rw [hdist (SortFunc cfg) _ MeshArray (List.Nodup.of_map Prod.fst hkeys) hag]
      refine (hsort.sorted _ MeshArray (lexical_strictWeak hlex).2).imp ?_
      intro A B h
      simpa [keyOrdered, hkey, hd] using h
  · refine (hsort.sorted _ MeshArray (SortFunc_numeric_strictWeak cfg hkey)).imp ?_
    intro A B h
    cases hd : cfg.bSortDescending with
    | false => simpa [keyOrdered, SortFunc, hkey, hd, GetKey_eq_columnKey] using h
    | true => simpa [keyOrdered, SortFunc, hkey, hd, GetKey_eq_columnKey] using h

/-- C11: for every sort routine that meets the contract of `TArray::Sort` and
compares only different elements, names being ordered by `LexicalLess`, every
list with pairwise different names (as a filtered list has), every sort key and
both directions: the sorted list is a permutation of the list, and every element
is followed only by elements whose key is not smaller (ascending) or not larger
(descending), names compared lexically and the other keys as the `int64` number
the sort key stands for (`columnKey`). -/
theorem sort_step_is_ordered_permutation {N : Type} [DecidableEq N] [FNameApi N]
    (ArraySort : (N × FMeshInfo → N × FMeshInfo → Bool) → List (N × FMeshInfo) →
      List (N × FMeshInfo))
    (hsort : IsArraySort ArraySort) (hdist : ComparesDistinct ArraySort)
    (hlex : LexicalOrder N) (cfg : AGpuOptimizationHelper) (MeshArray : List (N × FMeshInfo))
    (hkeys : (MeshArray.map Prod.fst).Nodup) :
    (ArraySort (SortFunc cfg) MeshArray).Perm MeshArray ∧
      (ArraySort (SortFunc cfg) MeshArray).Pairwise (keyOrdered cfg) ∧
      (ArraySort (SortFunc cfg) MeshArray).Chain' (keyOrdered cfg) :=
  ⟨hsort.perm _ _, sorted_pairwise_keyOrdered ArraySort hsort hdist hlex cfg MeshArray hkeys,
    List.Pairwise.chain'
      (sorted_pairwise_keyOrdered ArraySort hsort hdist hlex cfg MeshArray hkeys)⟩

/-- Witness of C11: `Tree_C` (150 vertices, 2 instances) and `Rock_A` (100
vertices, 3 instances) sorted by vertex count ascending, by instance count
descending and by name descending. -/
theorem sort_step_is_ordered_permutation_witness :
    ShortRangeSort (SortFunc byVertAscending) [treeTie, rockTie] = [rockTie, treeTie] ∧
      ShortRangeSort (SortFunc byCountDescending) [treeTie, rockTie] = [rockTie, treeTie] ∧
      ShortRangeSort (SortFunc byNameDescending) [rockTie, treeTie] = [treeTie, rockTie] ∧
      columnKey ESortKey.Vert rockTie = 100 ∧ columnKey ESortKey.Vert treeTie = 150 ∧
      columnKey ESortKey.Count rockTie = 3 ∧ columnKey ESortKey.Count treeTie = 2 ∧
      ((ShortRangeSort (SortFunc byVertAscending) [treeTie, rockTie]).Perm [treeTie, rockTie] ∧
        (ShortRangeSort (SortFunc byVertAscending) [treeTie, rockTie]).Pairwise
          (keyOrdered byVertAscending) ∧
        (ShortRangeSort (SortFunc byVertAscending) [treeTie, rockTie]).Chain'
          (keyOrdered byVertAscending)) ∧
      ((ShortRangeSort (SortFunc byCountDescending) [treeTie, rockTie]).Perm
          [treeTie, rockTie] ∧
        (ShortRangeSort (SortFunc byCountDescending) [treeTie, rockTie]).Pairwise
          (keyOrdered byCountDescending) ∧
        (ShortRangeSort (SortFunc byCountDescending) [treeTie, rockTie]).Chain'
          (keyOrdered byCountDescending)) ∧
      ((ShortRangeSort (SortFunc byNameDescending) [rockTie, treeTie]).Perm
          [rockTie, treeTie] ∧
        (ShortRangeSort (SortFunc byNameDescending) [rockTie, treeTie]).Pairwise
          (keyOrdered byNameDescending) ∧
        (ShortRangeSort (SortFunc byNameDescending) [rockTie, treeTie]).Chain'
          (keyOrdered byNameDescending)) :=
  ⟨by decide, by decide, by decide, by decide, by decide, by decide, by decide,
    sort_step_is_ordered_permutation ShortRangeSort ShortRangeSort_isArraySort
      ShortRangeSort_comparesDistinct lexicalOrder_String byVertAscending [treeTie, rockTie]
      (by decide),
    sort_step_is_ordered_permutation ShortRangeSort ShortRangeSort_isArraySort
      ShortRangeSort_comparesDistinct lexicalOrder_String byCountDescending [treeTie, rockTie]
      (by decide),
    sort_step_is_ordered_permutation ShortRangeSort ShortRangeSort_isArraySort
      ShortRangeSort_comparesDistinct lexicalOrder_String byNameDescending [rockTie, treeTie]
      (by decide)⟩

theorem pair_sublist_or {α : Type} (L : List α) (A B : α) (hA : A ∈ L) (hB : B ∈ L)
    (hne : A ≠ B) : [A, B].Sublist L ∨ [B, A].Sublist L := by
  induction L with
  | nil => simp at hA
  | cons X Rest ih =>
    rcases List.mem_cons.1 hA with h1 | h1
    · rcases List.mem_cons.1 hB with h2 | h2
      · exact absurd (h1.trans h2.symm) hne
      · left
        rw [h1]
        exact List.Sublist.cons₂ _ (List.singleton_sublist.2 h2)
    · rcases List.mem_cons.1 hB with h2 | h2
      · right
        rw [h2]
        exact List.Sublist.cons₂ _ (List.singleton_sublist.2 h1)
      · rcases ih h1 h2 with h | h
        · exact Or.inl (List.Sublist.cons _ h)
        · exact Or.inr (List.Sublist.cons _ h)

theorem rel_of_pair_sublist {α : Type} (R : α → α → Prop) (L : List α) (hL : L.Pairwise R)
    (A B : α) (h : [A, B].Sublist L) : R A B := by
  have := List.Pairwise.sublist h hL
  simpa using this

/-- Two elements that may stand in either order, ascending and descending, do
not have unequal keys. -/
theorem not_differentKeys_of_ordered_both_ways {N : Type} [FNameApi N]
    (hlex : LexicalOrder N) (cfg : AGpuOptimizationHelper) (A B : N × FMeshInfo)
    (hasc : keyOrdered { cfg with bSortDescending := false } A B)
    (hdesc : keyOrdered { cfg with bSortDescending := true } A B) :
    ¬ differentKeys cfg.SortBy A B := by
  by_cases hkey : cfg.SortBy = ESortKey.Name
  · simp only [keyOrdered, hkey, if_true, if_false, Bool.false_eq_true] at hasc hdesc
    simp only [differentKeys, hkey, if_true, not_not]
    exact lexical_incomparable_eq hlex A.1 B.1 hdesc hasc
  · simp only [keyOrdered, hkey, if_true, if_false, Bool.false_eq_true] at hasc hdesc
    simp only [differentKeys, hkey, if_false, not_not]
    omega

theorem differentKeys_symm {N : Type} (Key : ESortKey) (A B : N × FMeshInfo)
    (h : differentKeys Key A B) : differentKeys Key B A := by
  unfold differentKeys at h ⊢
  split
  · rename_i hk
    rw [if_pos hk] at h
    exact fun hc => h hc.symm
  · rename_i hk
    rw [if_neg hk] at h
    exact fun hc => h hc.symm

theorem ne_of_differentKeys {N : Type} (Key : ESortKey) (A B : N × FMeshInfo)
    (h : differentKeys Key A B) : A ≠ B := by
  intro hc
  subst hc
  unfold differentKeys at h
  split at h <;> exact h rfl

/-- C12: for every sort routine that meets the contract of `TArray::Sort` and
compares only different elements, names being ordered by `LexicalLess`, every
list with pairwise different names, every sort key and any two of its elements
with unequal keys (different names for `Name`, different numbers of the key
otherwise): `A` precedes `B` in the list sorted ascending exactly when `B`
precedes `A` in the list sorted descending, and in the ascending list the one
with the smaller key precedes. -/
theorem direction_reverses_unequal_keys {N : Type} [DecidableEq N] [FNameApi N]
    (ArraySort : (N × FMeshInfo → N × FMeshInfo → Bool) → List (N × FMeshInfo) →
      List (N × FMeshInfo))
    (hsort : IsArraySort ArraySort) (hdist : ComparesDistinct ArraySort)
    (hlex : LexicalOrder N) (cfg : AGpuOptimizationHelper) (MeshArray : List (N × FMeshInfo))
    (hkeys : (MeshArray.map Prod.fst).Nodup) (A B : N × FMeshInfo)
    (hA : A ∈ MeshArray) (hB : B ∈ MeshArray) (hne : differentKeys cfg.SortBy A B) :
    ([A, B].Sublist (ArraySort (SortFunc { cfg with bSortDescending := false }) MeshArray) ↔
      [B, A].Sublist (ArraySort (SortFunc { cfg with bSortDescending := true }) MeshArray)) ∧
      ([A, B].Sublist (ArraySort (SortFunc { cfg with bSortDescending := false }) MeshArray) →
        keyOrdered { cfg with bSortDescending := false } A B) ∧
      ([A, B].Sublist (ArraySort (SortFunc { cfg with bSortDescending := false }) MeshArray) ∨
        [B, A].Sublist (ArraySort (SortFunc { cfg with bSortDescending := false }) MeshArray)) := by
  have hAB : A ≠ B := ne_of_differentKeys _ A B hne
  have hasc := sorted_pairwise_keyOrdered ArraySort hsort hdist hlex
    { cfg with bSortDescending := false } MeshArray hkeys
  have hdesc := sorted_pairwise_keyOrdered ArraySort hsort hdist hlex
    { cfg with bSortDescending := true } MeshArray hkeys
  have hpa := hsort.perm (SortFunc { cfg with bSortDescending := false }) MeshArray
  have hpd := hsort.perm (SortFunc { cfg with bSortDescending := true }) MeshArray
  refine ⟨⟨fun h => ?_, fun h => ?_⟩, fun h => rel_of_pair_sublist _ _ hasc A B h,
    pair_sublist_or _ A B (hpa.mem_iff.2 hA) (hpa.mem_iff.2 hB) hAB⟩
  · have h1 := rel_of_pair_sublist _ _ hasc A B h
    rcases pair_sublist_or _ A B (hpd.mem_iff.2 hA) (hpd.mem_iff.2 hB) hAB with h2 | h2
    · have h3 := rel_of_pair_sublist _ _ hdesc A B h2
      exact absurd hne (not_differentKeys_of_ordered_both_ways hlex cfg A B h1 h3)
    · exact h2
  · have h1 := rel_of_pair_sublist _ _ hdesc B A h
    rcases pair_sublist_or _ A B (hpa.mem_iff.2 hA) (hpa.mem_iff.2 hB) hAB with h2 | h2
    · exact h2
    · have h3 := rel_of_pair_sublist _ _ hasc B A h2
      exact absurd (differentKeys_symm _ A B hne)
        (not_differentKeys_of_ordered_both_ways hlex cfg B A h3 h1)

/-- Witness of C12: `Rock_A` (100 vertices) and `Tree_C` (150 vertices) sorted by
vertex count: `Rock_A` is first ascending and `Tree_C` is first descending. -/
theorem direction_reverses_unequal_keys_witness :
    ShortRangeSort (SortFunc { byVertAscending with bSortDescending := false })
        [treeTie, rockTie] = [rockTie, treeTie] ∧
      ShortRangeSort (SortFunc { byVertAscending with bSortDescending := true })
        [treeTie, rockTie] = [treeTie, rockTie] ∧
      (([rockTie, treeTie].Sublist
          (ShortRangeSort (SortFunc { byVertAscending with bSortDescending := false })
            [treeTie, rockTie]) ↔
        [treeTie, rockTie].Sublist
          (ShortRangeSort (SortFunc { byVertAscending with bSortDescending := true })
            [treeTie, rockTie])) ∧
        ([rockTie, treeTie].Sublist
            (ShortRangeSort (SortFunc { byVertAscending with bSortDescending := false })
              [treeTie, rockTie]) →
          keyOrdered { byVertAscending with bSortDescending := false } rockTie treeTie) ∧
        ([rockTie, treeTie].Sublist
            (ShortRangeSort (SortFunc { byVertAscending with bSortDescending := false })
              [treeTie, rockTie]) ∨
          [treeTie, rockTie].Sublist
            (ShortRangeSort (SortFunc { byVertAscending with bSortDescending := false })
              [treeTie, rockTie]))) :=
  ⟨by decide, by decide,
    direction_reverses_unequal_keys ShortRangeSort ShortRangeSort_isArraySort
      ShortRangeSort_comparesDistinct lexicalOrder_String byVertAscending [treeTie, rockTie]
      (by decide) rockTie treeTie (by decide) (by decide)
      (by unfold differentKeys; decide)⟩

/-! ## Facts about formatted lengths and widths -/

theorem decDigitsAux_eq_log (fuel : Nat) :
    ∀ n : Nat, n ≤ fuel → decDigitsAux fuel n = Nat.log 10 n + 1 := by
  induction fuel with
  | zero =>
    intro n hn
    have : n = 0 := by omega
    subst this
    simp [decDigitsAux]
  | succ fuel ih =>
    intro n hn
    unfold decDigitsAux
    by_cases h : n < 10
    · simp [h, Nat.log_of_lt h]
    · rw [if_neg h, ih (n / 10) (by omega)]
      have h10 : 10 ≤ n := by omega
      rw [Nat.log_of_one_lt_of_le (by norm_num) h10]

theorem decDigits_eq_log (n : Nat) : decDigits n = Nat.log 10 n + 1 :=
  decDigitsAux_eq_log n n (le_refl n)

theorem decDigits_mono {m n : Nat} (h : m ≤ n) : decDigits m ≤ decDigits n := by
  rw [decDigits_eq_log, decDigits_eq_log]
  exact Nat.succ_le_succ (Nat.log_mono_right h)

theorem decDigits_le_of_lt_pow {n k : Nat} (hk : 1 ≤ k) (h : n < 10 ^ k) : decDigits n ≤ k := by
  rw [decDigits_eq_log]
  by_cases h0 : n = 0
  · subst h0
    simp
    omega
  · have := Nat.log_lt_of_lt_pow h0 h
    omega

theorem fmtLen_natCast (n : Nat) : fmtLen (n : Int) = decDigits n := by
  unfold fmtLen
  have : ¬ ((n : Int) < 0) := by omega
  simp [this]

theorem toI32_natCast {n : Nat} (h : n < 2147483648) : toI32 (n : Int) = (n : Int) := by
  unfold toI32
  omega

theorem toU8_of_lt {n : Nat} (h : n < 256) : toU8 n = n := by
  unfold toU8
  omega

theorem widest_cons (Seed x : Nat) (L : List Nat) :
    widest Seed (x :: L) = max x (widest Seed L) := rfl

theorem widest_append_singleton (Seed x : Nat) (L : List Nat) :
    widest Seed (L ++ [x]) = max (widest Seed L) x := by
  induction L with
  | nil => simp [widest, Nat.max_comm]
  | cons y L ih =>
    rw [List.cons_append, widest_cons, widest_cons, ih]
    omega

theorem seed_le_widest (Seed : Nat) (L : List Nat) : Seed ≤ widest Seed L := by
  induction L with
  | nil => simp [widest]
  | cons y L ih =>
    rw [widest_cons]
    omega

theorem le_widest_of_mem (Seed : Nat) (L : List Nat) (x : Nat) (h : x ∈ L) :
    x ≤ widest Seed L := by
  induction L with
  | nil => simp at h
  | cons y L ih =>
    rw [widest_cons]
    rcases List.mem_cons.1 h with h1 | h1
    · omega
    · have := ih h1
      omega

theorem widest_le (Seed b : Nat) (L : List Nat) (hs : Seed ≤ b) (h : ∀ x ∈ L, x ≤ b) :
    widest Seed L ≤ b := by
  induction L with
  | nil => simpa [widest] using hs
  | cons y L ih =>
    rw [widest_cons]
    have h1 := h y (by simp)
    have h2 := ih (fun x hx => h x (List.mem_cons_of_mem _ hx))
    omega

theorem widest_map_le_widest_map {α : Type} (s1 s2 : Nat) (f g : α → Nat) (L : List α)
    (hs : s1 ≤ s2) (h : ∀ e ∈ L, f e ≤ g e) :
    widest s1 (L.map f) ≤ widest s2 (L.map g) := by
  refine widest_le _ _ _ (le_trans hs (seed_le_widest _ _)) ?_
  intro x hx
  obtain ⟨e, he, rfl⟩ := List.mem_map.1 hx
  exact le_trans (h e he) (le_widest_of_mem _ _ _ (List.mem_map_of_mem g he))

theorem map_Set_of_eq {N : Type} [DecidableEq N] (f : N × FMeshInfo → Nat)
    (M : List (N × FMeshInfo)) (k : N) (Old v : FMeshInfo) (hf : TMap.Find M k = some Old)
    (heq : f (k, v) = f (k, Old)) : (TMap.Set M k v).map f = M.map f := by
  induction M with
  | nil => simp [TMap.Find] at hf
  | cons e M ih =>
    obtain ⟨k0, v0⟩ := e
    by_cases hk : k0 = k
    · subst hk
      simp only [TMap.Find, if_true, Option.some.injEq] at hf
      subst hf
      simp [TMap.Set, heq]
    · simp only [TMap.Find, hk, if_false] at hf
      simp [TMap.Set, hk, ih hf]

theorem widest_map_Set_of_le {N : Type} [DecidableEq N] (Seed : Nat)
    (f : N × FMeshInfo → Nat) (M : List (N × FMeshInfo)) (k : N) (Old v : FMeshInfo)
    (hf : TMap.Find M k = some Old) (hle : f (k, Old) ≤ f (k, v)) :
    widest Seed ((TMap.Set M k v).map f) = max (widest Seed (M.map f)) (f (k, v)) := by
  induction M with
  | nil => simp [TMap.Find] at hf
  | cons e M ih =>
    obtain ⟨k0, v0⟩ := e
    by_cases hk : k0 = k
    · subst hk
      simp only [TMap.Find, if_true, Option.some.injEq] at hf
      subst hf
      simp only [TMap.Set, if_true, List.map_cons, widest_cons]
      omega
    · simp only [TMap.Find, hk, if_false] at hf
      simp only [TMap.Set, hk, if_false, List.map_cons, widest_cons, ih hf]
      omega

/-- The measured lengths of an entry whose counts are in the ranges the
traversal produces, as digit counts. -/
theorem measured_of_bounds {N : Type} [FNameApi N] (Name : N) (Info : FMeshInfo)
    (hv : Info.VertCount < 4294967296) (ht : Info.TriCount < 4294967296)
    (hc : Info.Count < 2147483648) :
    (measuredLens (Name, Info)).VertWidth = decDigits Info.VertCount ∧
      (measuredLens (Name, Info)).TriWidth = decDigits Info.TriCount ∧
      (measuredLens (Name, Info)).CountWidth = decDigits Info.Count ∧
      (measuredLens (Name, Info)).TotalVertWidth = decDigits (Info.VertCount * Info.Count) ∧
      (measuredLens (Name, Info)).TotalTriWidth = decDigits (Info.TriCount * Info.Count) := by
  have hex := totals_exact Info ⟨hv, ht⟩ (by omega)
  have h1 : Info.VertCount * Info.Count < 4294967296 * 2147483648 :=
    Nat.mul_lt_mul'' hv hc
  have h2 : Info.TriCount * Info.Count < 4294967296 * 2147483648 :=
    Nat.mul_lt_mul'' ht hc
  have d1 : decDigits Info.VertCount ≤ 10 :=
    decDigits_le_of_lt_pow (by norm_num) (lt_trans hv (by norm_num))
  have d2 : decDigits Info.TriCount ≤ 10 :=
    decDigits_le_of_lt_pow (by norm_num) (lt_trans ht (by norm_num))
  have d3 : decDigits Info.Count ≤ 10 :=
    decDigits_le_of_lt_pow (by norm_num) (lt_trans hc (by norm_num))
  have d4 : decDigits (Info.VertCount * Info.Count) ≤ 19 :=
    decDigits_le_of_lt_pow (by norm_num) (lt_trans h1 (by norm_num))
  have d5 : decDigits (Info.TriCount * Info.Count) ≤ 19 :=
    decDigits_le_of_lt_pow (by norm_num) (lt_trans h2 (by norm_num))
  have c1 : ((Info.VertCount * Info.Count : Nat) : Int) = (Info.VertCount : Int) * Info.Count :=
    Nat.cast_mul _ _
  have c2 : ((Info.TriCount * Info.Count : Nat) : Int) = (Info.TriCount : Int) * Info.Count :=
    Nat.cast_mul _ _
  simp only [measuredLens, hex.1, hex.2, ← c1, ← c2, toI32_natCast hc, fmtLen_natCast]
  refine ⟨toU8_of_lt (by omega), toU8_of_lt (by omega), toU8_of_lt (by omega),
    toU8_of_lt (by omega), toU8_of_lt (by omega)⟩

/-- The branch that creates an entry keeps the widths equal to those the map
accounts for. -/
theorem widthsOnNew_widthsOf {N : Type} [FNameApi N] (M : List (N × FMeshInfo))
    (hM : ∀ Elem ∈ M, (measuredLens Elem).VertWidth ≤ (measuredLens Elem).TotalVertWidth ∧
      (measuredLens Elem).TriWidth ≤ (measuredLens Elem).TotalTriWidth)
    (Name : N) (MinLOD : Int) (V T : Nat) (ShortPath : String)
    (hV : V < 4294967296) (hT : T < 4294967296) :
    widthsOnNew (widthsOf M) (FNameApi.ToString Name) MinLOD V T ShortPath =
      widthsOf (M ++ [(Name, FMeshInfo.new MinLOD V T ShortPath)]) := by
  have hm := measured_of_bounds Name (FMeshInfo.new MinLOD V T ShortPath) hV hT
    (by simp [FMeshInfo.new])
  have hVC : (FMeshInfo.new MinLOD V T ShortPath).VertCount = V := rfl
  have hTC : (FMeshInfo.new MinLOD V T ShortPath).TriCount = T := rfl
  have hCC : (FMeshInfo.new MinLOD V T ShortPath).Count = 1 := rfl
  rw [hVC, hTC, hCC, Nat.mul_one, Nat.mul_one] at hm
  obtain ⟨m1, m2, m3, m4, m5⟩ := hm
  have hvw : widest 5 (M.map (fun Elem => (measuredLens Elem).VertWidth)) ≤
      widest 10 (M.map (fun Elem => (measuredLens Elem).TotalVertWidth)) :=
    widest_map_le_widest_map 5 10 _ _ M (by norm_num) (fun e he => (hM e he).1)
  have htw : widest 5 (M.map (fun Elem => (measuredLens Elem).TriWidth)) ≤
      widest 9 (M.map (fun Elem => (measuredLens Elem).TotalTriWidth)) :=
    widest_map_le_widest_map 5 9 _ _ M (by norm_num) (fun e he => (hM e he).2)
  have hcw := seed_le_widest 5 (M.map (fun Elem => (measuredLens Elem).CountWidth))
  have hone : decDigits 1 = 1 := by decide
  have d1 : decDigits V ≤ 10 :=
    decDigits_le_of_lt_pow (by norm_num) (lt_trans hV (by norm_num))
  have d2 : decDigits T ≤ 10 :=
    decDigits_le_of_lt_pow (by norm_num) (lt_trans hT (by norm_num))
  have e1 : toU8 (fmtLen (V : Int)) = decDigits V := by
    rw [fmtLen_natCast]
    exact toU8_of_lt (by omega)
  have e2 : toU8 (fmtLen (T : Int)) = decDigits T := by
    rw [fmtLen_natCast]
    exact toU8_of_lt (by omega)
  have n1 : (measuredLens (Name, FMeshInfo.new MinLOD V T ShortPath)).NameWidth =
      toU8 (FString.Len (FNameApi.ToString Name)) := rfl
  have n2 : (measuredLens (Name, FMeshInfo.new MinLOD V T ShortPath)).MinLODWidth =
      toU8 (fmtLen MinLOD) := rfl
  have n3 : (measuredLens (Name, FMeshInfo.new MinLOD V T ShortPath)).PathWidth =
      toU16 (FString.Len ShortPath) := rfl
  simp only [widthsOnNew, widthsOf, List.map_append, List.map_cons, List.map_nil,
    widest_append_singleton, UpdateWidth, Widths.mk.injEq, m1, m2, m3, m4, m5, hone, e1, e2,
    n1, n2, n3, true_and, and_true]
  refine ⟨?_, ?_, ?_⟩ <;> omega

/-- The branch that updates an entry keeps the widths equal to those the map
accounts for. -/
theorem widthsOnUpdate_widthsOf {N : Type} [DecidableEq N] [FNameApi N]
    (M : List (N × FMeshInfo)) (Name : N) (Old New : FMeshInfo)
    (hf : TMap.Find M Name = some Old)
    (hMin : New.MinLOD = Old.MinLOD) (hVC : New.VertCount = Old.VertCount)
    (hTC : New.TriCount = Old.TriCount) (hSP : New.ShortPath = Old.ShortPath)
    (hC : New.Count = Old.Count + 1)
    (hv : Old.VertCount < 4294967296) (ht : Old.TriCount < 4294967296)
    (hc : Old.Count + 1 < 2147483648) :
    widthsOnUpdate (widthsOf M) New = widthsOf (TMap.Set M Name New) := by
  obtain ⟨_, _, o3, o4, o5⟩ := measured_of_bounds Name Old hv ht (by omega)
  obtain ⟨_, _, n3, n4, n5⟩ :=
    measured_of_bounds Name New (by rw [hVC]; exact hv) (by rw [hTC]; exact ht) (by omega)
  have k1 : widest 4 ((TMap.Set M Name New).map (fun Elem => (measuredLens Elem).NameWidth)) =
      widest 4 (M.map (fun Elem => (measuredLens Elem).NameWidth)) := by
    rw [map_Set_of_eq (fun Elem => (measuredLens Elem).NameWidth) M Name Old New hf rfl]
  have k2 : widest 6 ((TMap.Set M Name New).map (fun Elem => (measuredLens Elem).MinLODWidth)) =
      widest 6 (M.map (fun Elem => (measuredLens Elem).MinLODWidth)) := by
    rw [map_Set_of_eq _ M Name Old New hf (by simp [measuredLens, hMin])]
  have k3 : widest 5 ((TMap.Set M Name New).map (fun Elem => (measuredLens Elem).VertWidth)) =
      widest 5 (M.map (fun Elem => (measuredLens Elem).VertWidth)) := by
    rw [map_Set_of_eq _ M Name Old New hf (by simp [measuredLens, hVC])]
  have k4 : widest 5 ((TMap.Set M Name New).map (fun Elem => (measuredLens Elem).TriWidth)) =
      widest 5 (M.map (fun Elem => (measuredLens Elem).TriWidth)) := by
    rw [map_Set_of_eq _ M Name Old New hf (by simp [measuredLens, hTC])]
  have k8 : widest 10 ((TMap.Set M Name New).map (fun Elem => (measuredLens Elem).PathWidth)) =
      widest 10 (M.map (fun Elem => (measuredLens Elem).PathWidth)) := by
    rw [map_Set_of_eq _ M Name Old New hf (by simp [measuredLens, hSP])]
  have k5 := widest_map_Set_of_le 5 (fun Elem => (measuredLens Elem).CountWidth) M Name Old New hf
    (by
      simp only [o3, n3, hC]
      exact decDigits_mono (by omega))
  have k6 := widest_map_Set_of_le 10 (fun Elem => (measuredLens Elem).TotalVertWidth) M Name
    Old New hf
    (by
      simp only [o4, n4, hC, hVC]
      exact decDigits_mono (Nat.mul_le_mul_left _ (by omega)))
  have k7 := widest_map_Set_of_le 9 (fun Elem => (measuredLens Elem).TotalTriWidth) M Name
    Old New hf
    (by
      simp only [o5, n5, hC, hTC]
      exact decDigits_mono (Nat.mul_le_mul_left _ (by omega)))
  have r5 : toU8 (fmtLen (toI32 (New.Count : Int))) = (measuredLens (Name, New)).CountWidth := rfl
  have r6 : toU8 (fmtLen New.TotalVerts) = (measuredLens (Name, New)).TotalVertWidth := rfl
  have r7 : toU8 (fmtLen New.TotalTris) = (measuredLens (Name, New)).TotalTriWidth := rfl
  simp only [widthsOnUpdate, widthsOf, UpdateWidth, Widths.mk.injEq, k1, k2, k3, k4, k5, k6,
    k7, k8, r5, r6, r7, and_self]

/-- Every entry of the map after the traversal of fewer than 2^31 records has
counts in range, and its vertex and triangle lengths are at most the lengths of
its totals. -/
theorem entry_bounds_foldRecords {N : Type} [DecidableEq N] [FNameApi N]
    (cfg : AGpuOptimizationHelper) (Records : List (UStaticMesh N))
    (hlen : Records.length < 2147483648) (Name : N) (Info : FMeshInfo)
    (hmem : (Name, Info) ∈ (foldRecords cfg Records).MeshMap) :
    Info.VertCount < 4294967296 ∧ Info.TriCount < 4294967296 ∧ 1 ≤ Info.Count ∧
      Info.Count ≤ Records.length ∧
      (measuredLens (Name, Info)).VertWidth ≤ (measuredLens (Name, Info)).TotalVertWidth ∧
      (measuredLens (Name, Info)).TriWidth ≤ (measuredLens (Name, Info)).TotalTriWidth := by
  obtain ⟨First, Rest, hL, hInfo⟩ := mem_MeshMap_foldRecords cfg Records Name Info hmem
  have hle := acceptedNamed_length_le cfg Records Name
  rw [hL, List.length_cons] at hle
  have hv : Info.VertCount < 4294967296 := by rw [hInfo]; exact VertCountOf_lt First
  have ht : Info.TriCount < 4294967296 := by rw [hInfo]; exact TriCountOf_lt First
  have hc : Info.Count = Rest.length + 1 := by
    rw [hInfo]
    simp only
    omega
  obtain ⟨m1, m2, _, m4, m5⟩ := measured_of_bounds Name Info hv ht (by omega)
  refine ⟨hv, ht, by omega, by omega, ?_, ?_⟩
  · rw [m1, m4]
    exact decDigits_mono (Nat.le_mul_of_pos_right _ (by omega))
  · rw [m2, m5]
    exact decDigits_mono (Nat.le_mul_of_pos_right _ (by omega))

/-- The widths after the traversal are those the whole map accounts for. -/
theorem W_foldRecords {N : Type} [DecidableEq N] [FNameApi N]
    (cfg : AGpuOptimizationHelper) (Records : List (UStaticMesh N)) :
    Records.length < 2147483648 →
      (foldRecords cfg Records).W = widthsOf (foldRecords cfg Records).MeshMap := by
  induction Records using List.reverseRecOn with
  | nil => intro _; rfl
  | append_singleton Records Mesh ih =>
    intro hlen
    rw [List.length_append, List.length_singleton] at hlen
    have ih2 := ih (by omega)
    rw [foldRecords_append_singleton]
    cases hacc : accepted cfg Mesh with
    | false => rw [foldStep_of_rejected cfg _ _ hacc]; exact ih2
    | true =>
      rw [foldStep_of_accepted cfg _ _ hacc]
      cases hf : TMap.Find (foldRecords cfg Records).MeshMap Mesh.Name with
      | none =>
        simp only
        rw [ih2]
        exact widthsOnNew_widthsOf _
          (fun Elem he =>
            (entry_bounds_foldRecords cfg Records (by omega) Elem.1 Elem.2 he).2.2.2.2)
          Mesh.Name Mesh.MinLOD _ _ _ (VertCountOf_lt Mesh) (TriCountOf_lt Mesh)
      | some Old =>
        simp only
        rw [ih2]
        have hb := entry_bounds_foldRecords cfg Records (by omega) Mesh.Name Old
          (TMap.mem_of_Find _ _ _ hf)
        exact widthsOnUpdate_widthsOf _ Mesh.Name Old _ hf rfl rfl rfl rfl
          (by simp only; omega) hb.1 hb.2.1 (by omega)

/-- The traversal reads only the two per-record thresholds of the
configuration. -/
theorem foldRecords_congr {N : Type} [DecidableEq N] [FNameApi N]
    (cfg other : AGpuOptimizationHelper) (Records : List (UStaticMesh N))
    (hlod : other.MaxMinLodCountToDump = cfg.MaxMinLodCountToDump)
    (hvert : other.MinVertCountToDump = cfg.MinVertCountToDump) :
    foldRecords other Records = foldRecords cfg Records := by
  have hstep : (foldStep other : DumpState N → UStaticMesh N → DumpState N) = foldStep cfg := by
    funext S Mesh
    simp only [foldStep, hlod, hvert]
  simp only [foldRecords, hstep]

/-! ## The width claim -/

/-- C18, as stated, fails: with a floor of two instances, two `Rock_A` records
and one record of a long-named mesh, the filter keeps only `Rock_A`, yet the
name and path widths are those of the removed entry (28 and 35, not 6 and 19),
and the triangle width is its seed 5, not the length 4 of the label `Tris`. -/
theorem widths_count_removed_entries :
    (MeshArrayOf twoInstances
        (foldRecords twoInstances [rockA, rockA, cliffMesh]).MeshMap).map Prod.fst =
        ["Rock_A"] ∧
      (foldRecords twoInstances [rockA, rockA, cliffMesh]).W.NameWidth = 28 ∧
      (survivorWidths twoInstances
        (foldRecords twoInstances [rockA, rockA, cliffMesh]).MeshMap).NameWidth = 6 ∧
      (foldRecords twoInstances [rockA, rockA, cliffMesh]).W.PathWidth = 35 ∧
      (survivorWidths twoInstances
        (foldRecords twoInstances [rockA, rockA, cliffMesh]).MeshMap).PathWidth = 19 ∧
      (foldRecords twoInstances [rockA, rockA, cliffMesh]).W.TriWidth = 5 ∧
      (survivorWidths twoInstances
        (foldRecords twoInstances [rockA, rockA, cliffMesh]).MeshMap).TriWidth = 4 ∧
      (foldRecords twoInstances [rockA, rockA, cliffMesh]).W ≠
        survivorWidths twoInstances
          (foldRecords twoInstances [rockA, rockA, cliffMesh]).MeshMap := by
  decide

theorem fmtLen_le_of_int32 (v : Int) (h0 : -2147483648 ≤ v) (h1 : v < 2147483648) :
    fmtLen v ≤ 11 := by
  have hd : decDigits v.natAbs ≤ 10 :=
    decDigits_le_of_lt_pow (by norm_num) (by omega)
  unfold fmtLen
  split <;> omega

theorem toI32_of_range (v : Int) (h0 : -2147483648 ≤ v) (h1 : v < 2147483648) :
    toI32 v = v := by
  unfold toI32
  omega

theorem Widths_eq_of_fields (W1 W2 : Widths) (h1 : W1.NameWidth = W2.NameWidth)
    (h2 : W1.MinLODWidth = W2.MinLODWidth) (h3 : W1.VertWidth = W2.VertWidth)
    (h4 : W1.TriWidth = W2.TriWidth) (h5 : W1.CountWidth = W2.CountWidth)
    (h6 : W1.TotalVertWidth = W2.TotalVertWidth) (h7 : W1.TotalTriWidth = W2.TotalTriWidth)
    (h8 : W1.PathWidth = W2.PathWidth) : W1 = W2 := by
  cases W1
  cases W2
  simp only [Widths.mk.injEq]
  exact ⟨h1, h2, h3, h4, h5, h6, h7, h8⟩

/-- For an entry whose values fit the types the report gives them, what the
traversal measures is what the row prints. -/
theorem measuredLens_eq_rowValueLens {N : Type} [FNameApi N] (Name : N) (Info : FMeshInfo)
    (hname : FString.Len (FNameApi.ToString Name) < 256)
    (hpath : FString.Len Info.ShortPath < 65536)
    (hmin0 : -2147483648 ≤ Info.MinLOD) (hmin1 : Info.MinLOD < 2147483648)
    (hv : Info.VertCount < 2147483648) (ht : Info.TriCount < 2147483648)
    (hc : Info.Count < 2147483648) :
    measuredLens (Name, Info) = rowValueLens (Name, Info) := by
  obtain ⟨m1, m2, m3, m4, m5⟩ := measured_of_bounds Name Info (by omega) (by omega) hc
  have hex := totals_exact Info ⟨by omega, by omega⟩ (by omega)
  have c1 : ((Info.VertCount * Info.Count : Nat) : Int) = (Info.VertCount : Int) * Info.Count :=
    Nat.cast_mul _ _
  have c2 : ((Info.TriCount * Info.Count : Nat) : Int) = (Info.TriCount : Int) * Info.Count :=
    Nat.cast_mul _ _
  have r2 : (rowValueLens (Name, Info)).VertWidth = decDigits Info.VertCount := by
    simp only [rowValueLens, toI32_natCast hv, fmtLen_natCast]
  have r3 : (rowValueLens (Name, Info)).TriWidth = decDigits Info.TriCount := by
    simp only [rowValueLens, toI32_natCast ht, fmtLen_natCast]
  have r4 : (rowValueLens (Name, Info)).CountWidth = decDigits Info.Count := by
    simp only [rowValueLens, toI32_natCast hc, fmtLen_natCast]
  have r5 : (rowValueLens (Name, Info)).TotalVertWidth =
      decDigits (Info.VertCount * Info.Count) := by
    simp only [rowValueLens, hex.1, ← c1, fmtLen_natCast]
  have r6 : (rowValueLens (Name, Info)).TotalTriWidth =
      decDigits (Info.TriCount * Info.Count) := by
    simp only [rowValueLens, hex.2, ← c2, fmtLen_natCast]
  have r1 : (measuredLens (Name, Info)).MinLODWidth = (rowValueLens (Name, Info)).MinLODWidth := by
    have := fmtLen_le_of_int32 Info.MinLOD hmin0 hmin1
    simp only [measuredLens, rowValueLens, toI32_of_range Info.MinLOD hmin0 hmin1]
    exact toU8_of_lt (by omega)
  have r0 : (measuredLens (Name, Info)).NameWidth = (rowValueLens (Name, Info)).NameWidth :=
    toU8_of_lt hname
  have r7 : (measuredLens (Name, Info)).PathWidth = (rowValueLens (Name, Info)).PathWidth := by
    simp only [measuredLens, rowValueLens, toU16]
    omega
  exact Widths_eq_of_fields _ _ r0 r1 (m1.trans r2.symm) (m2.trans r3.symm)
    (m3.trans r4.symm) (m4.trans r5.symm) (m5.trans r6.symm) r7

/-- When every accepted record fits the columns, the measured and the printed
lengths agree on every entry of the map and the two width tables coincide. -/
theorem widthsOf_eq_mapWidths {N : Type} [DecidableEq N] [FNameApi N]
    (cfg : AGpuOptimizationHelper) (Records : List (UStaticMesh N))
    (hlen : Records.length < 2147483648)
    (hfit : ∀ Mesh ∈ Records, accepted cfg Mesh = true → fitsColumns Mesh) :
    widthsOf (foldRecords cfg Records).MeshMap = mapWidths (foldRecords cfg Records).MeshMap := by
  have hall : ∀ Elem ∈ (foldRecords cfg Records).MeshMap,
      measuredLens Elem = rowValueLens Elem := by
    rintro ⟨Name, Info⟩ hmem
    obtain ⟨First, Rest, hL, hInfo⟩ := mem_MeshMap_foldRecords cfg Records Name Info hmem
    have hFirst : First ∈ acceptedNamed cfg Records Name := by
      rw [hL]
      exact List.mem_cons_self _ _
    obtain ⟨hin, hacc, hname⟩ := (mem_acceptedNamed cfg Records Name First).1 hFirst
    obtain ⟨f1, f2, f3, f4, f5, f6⟩ := hfit First hin hacc
    have hb := entry_bounds_foldRecords cfg Records hlen Name Info hmem
    have e1 : Info.MinLOD = First.MinLOD := by rw [hInfo]
    have e2 : Info.VertCount = VertCountOf First := by rw [hInfo]
    have e3 : Info.TriCount = TriCountOf First := by rw [hInfo]
    have e4 : Info.ShortPath = ShortPathOf First := by rw [hInfo]
    exact measuredLens_eq_rowValueLens Name Info (by rw [← hname]; exact f1)
      (by rw [e4]; exact f2) (by rw [e1]; exact f3) (by rw [e1]; exact f4)
      (by rw [e2]; exact f5) (by rw [e3]; exact f6) (by omega)
  unfold widthsOf mapWidths
  simp only [List.map_congr_left (fun Elem he => congrArg Widths.NameWidth (hall Elem he)),
    List.map_congr_left (fun Elem he => congrArg Widths.MinLODWidth (hall Elem he)),
    List.map_congr_left (fun Elem he => congrArg Widths.VertWidth (hall Elem he)),
    List.map_congr_left (fun Elem he => congrArg Widths.TriWidth (hall Elem he)),
    List.map_congr_left (fun Elem he => congrArg Widths.CountWidth (hall Elem he)),
    List.map_congr_left (fun Elem he => congrArg Widths.TotalVertWidth (hall Elem he)),
    List.map_congr_left (fun Elem he => congrArg Widths.TotalTriWidth (hall Elem he)),
    List.map_congr_left (fun Elem he => congrArg Widths.PathWidth (hall Elem he))]

/-- C18, amended: for every sequence of fewer than 2^31 records whose accepted
records fit the columns, each column width at the end of the traversal is the
largest of the column's seed (4, 6, 5, 5, 5, 10, 9, 10) and the printed lengths
of that column over all entries of the map, whether or not the post-aggregation
filter removes them later; the widths are the same for every configuration with
the same per-record thresholds. -/
theorem widths_cover_whole_map {N : Type} [DecidableEq N] [FNameApi N]
    (cfg other : AGpuOptimizationHelper) (Records : List (UStaticMesh N))
    (hlen : Records.length < 2147483648)
    (hfit : ∀ Mesh ∈ Records, accepted cfg Mesh = true → fitsColumns Mesh)
    (hlod : other.MaxMinLodCountToDump = cfg.MaxMinLodCountToDump)
    (hvert : other.MinVertCountToDump = cfg.MinVertCountToDump) :
    (foldRecords cfg Records).W = mapWidths (foldRecords cfg Records).MeshMap ∧
      (foldRecords other Records).W = (foldRecords cfg Records).W := by
  refine ⟨?_, ?_⟩
  · rw [W_foldRecords cfg Records hlen]
    exact widthsOf_eq_mapWidths cfg Records hlen hfit
  · rw [foldRecords_congr cfg other Records hlod hvert]

/-- Witness of amended C18: the scenario of the removed long-named entry, with
and without the floor of two instances: the name width is 28 and the path
width 35 in both. -/
theorem widths_cover_whole_map_witness :
    ((foldRecords {} [rockA, rockA, cliffMesh]).W =
        mapWidths (foldRecords {} [rockA, rockA, cliffMesh]).MeshMap ∧
      (foldRecords twoInstances [rockA, rockA, cliffMesh]).W =
        (foldRecords {} [rockA, rockA, cliffMesh]).W) ∧
      (mapWidths (foldRecords {} [rockA, rockA, cliffMesh]).MeshMap).NameWidth = 28 ∧
      (mapWidths (foldRecords {} [rockA, rockA, cliffMesh]).MeshMap).PathWidth = 35 :=
  ⟨widths_cover_whole_map {} twoInstances [rockA, rockA, cliffMesh] (by decide)
      (by
        intro Mesh hmem _
        simp only [List.mem_cons, List.mem_singleton, List.not_mem_nil, or_false] at hmem
        rcases hmem with h | h | h <;> subst h <;> unfold fitsColumns <;> decide)
      rfl rfl,
    by decide, by decide⟩

/-! ## The comparator on the pairs the sort passes -/

theorem lexical_not_less_eq_swap {N : Type} [FNameApi N] (hlex : LexicalOrder N) (A B : N)
    (hne : A ≠ B) : (!FNameApi.LexicalLess A B) = FNameApi.LexicalLess B A := by
  rcases hlex.total A B hne with h | h
  · have h2 : FNameApi.LexicalLess B A = false := by
      by_contra hc
      have := hlex.trans A B A h (by simpa using hc)
      rw [hlex.irrefl] at this
      exact absurd this (by simp)
    simp [h, h2]
  · have h2 : FNameApi.LexicalLess A B = false := by
      by_contra hc
      have := hlex.trans A B A (by simpa using hc) h
      rw [hlex.irrefl] at this
      exact absurd this (by simp)
    simp [h, h2]

theorem StrictWeakOrdering.asymm {α : Type} {Pred : α → α → Bool}
    (h : StrictWeakOrdering Pred) (A B : α) (hAB : Pred A B = true) : Pred B A = false := by
  by_contra hc
  have := h.trans A B A hAB (by simpa using hc)
  rw [h.irrefl] at this
  exact absurd this (by simp)

/-- C17, amended: for every numeric sort key and every pair of entries, and for
`Name` and every pair of entries with different names (as any two elements of
`MeshArray` have), the comparator with `bSortDescending = true` applied to
`(A, B)` returns what the comparator with `bSortDescending = false` returns on
`(B, A)`. -/
theorem direction_exchanges_arguments {N : Type} [FNameApi N] (hlex : LexicalOrder N)
    (cfg : AGpuOptimizationHelper) (A B : N × FMeshInfo)
    (h : cfg.SortBy ≠ ESortKey.Name ∨ A.1 ≠ B.1) :
    SortFunc { cfg with bSortDescending := true } A B =
      SortFunc { cfg with bSortDescending := false } B A := by
  by_cases hkey : cfg.SortBy = ESortKey.Name
  · have hne : A.1 ≠ B.1 := by
      rcases h with h | h
      · exact absurd hkey h
      · exact h
    simp only [SortFunc, hkey, if_true, Bool.false_eq_true, if_false]
    exact lexical_not_less_eq_swap hlex A.1 B.1 hne
  · exact SortFunc_descending_eq_swap_of_numeric cfg hkey A B

/-- Witness of amended C17: `Rock_A` and `Tree_C` compared by name, and by
vertex count. -/
theorem direction_exchanges_arguments_witness :
    (SortFunc { byNameAscending with bSortDescending := true } rockTie treeTie =
        SortFunc { byNameAscending with bSortDescending := false } treeTie rockTie ∧
      SortFunc { byVertAscending with bSortDescending := true } rockTie rockTie =
        SortFunc { byVertAscending with bSortDescending := false } rockTie rockTie) ∧
      SortFunc { byNameAscending with bSortDescending := true } rockTie treeTie = false ∧
      SortFunc { byNameAscending with bSortDescending := true } treeTie rockTie = true :=
  ⟨⟨direction_exchanges_arguments lexicalOrder_String byNameAscending rockTie treeTie
      (Or.inr (by decide)),
    direction_exchanges_arguments lexicalOrder_String byVertAscending rockTie rockTie
      (Or.inl (by decide))⟩,
    by decide, by decide⟩

/-- C19, amended: for every sort key and direction the comparator is asymmetric
on entries with different names (as any two elements of `MeshArray` have), and
for every key and direction other than `Name` descending it is a strict
ordering on all pairs: irreflexive and asymmetric. -/
theorem comparator_strict_on_different_names {N : Type} [FNameApi N] (hlex : LexicalOrder N)
    (cfg : AGpuOptimizationHelper) (A B : N × FMeshInfo) :
    (A.1 ≠ B.1 → SortFunc cfg A B = true → SortFunc cfg B A = false) ∧
      (¬ (cfg.SortBy = ESortKey.Name ∧ cfg.bSortDescending = true) →
        SortFunc cfg A A = false ∧ (SortFunc cfg A B = true → SortFunc cfg B A = false)) := by
  have hstrict : ¬ (cfg.SortBy = ESortKey.Name ∧ cfg.bSortDescending = true) →
      SortFunc cfg A A = false ∧ (SortFunc cfg A B = true → SortFunc cfg B A = false) := by
    intro hnot
    by_cases hkey : cfg.SortBy = ESortKey.Name
    · have hd : cfg.bSortDescending = false := by
        cases hb : cfg.bSortDescending with
        | false => rfl
        | true => exact absurd ⟨hkey, hb⟩ hnot
      have hfun : (SortFunc cfg : N × FMeshInfo → N × FMeshInfo → Bool) =
          fun X Y => FNameApi.LexicalLess X.1 Y.1 := by
        funext X Y
        simp [SortFunc, hkey, hd]
      rw [hfun]
      exact ⟨(lexical_strictWeak hlex).1.irrefl A, (lexical_strictWeak hlex).1.asymm A B⟩
    · exact ⟨(SortFunc_numeric_strictWeak cfg hkey).irrefl A,
        (SortFunc_numeric_strictWeak cfg hkey).asymm A B⟩
  refine ⟨?_, hstrict⟩
  intro hne hAB
  by_cases hnd : cfg.SortBy = ESortKey.Name ∧ cfg.bSortDescending = true
  · have e1 : SortFunc cfg A B = FNameApi.LexicalLess B.1 A.1 := by
      simp only [SortFunc, hnd.1, hnd.2, if_true]
      exact lexical_not_less_eq_swap hlex A.1 B.1 hne
    have e2 : SortFunc cfg B A = FNameApi.LexicalLess A.1 B.1 := by
      simp only [SortFunc, hnd.1, hnd.2, if_true]
      exact lexical_not_less_eq_swap hlex B.1 A.1 (fun hc => hne hc.symm)
    rw [e1] at hAB
    rw [e2]
    exact (lexical_strictWeak hlex).2.asymm A B hAB
  · exact (hstrict hnd).2 hAB

/-- Witness of amended C19: `Rock_A` and `Tree_C` under `Name`, descending, and
`Rock_A` with itself under `Name`, ascending. -/
theorem comparator_strict_on_different_names_witness :
    SortFunc byNameDescending treeTie rockTie = true ∧
      SortFunc byNameDescending rockTie treeTie = false ∧
      SortFunc byNameAscending rockTie rockTie = false ∧
      (SortFunc byNameAscending rockTie treeTie = true →
        SortFunc byNameAscending treeTie rockTie = false) :=
  ⟨by decide,
    (comparator_strict_on_different_names lexicalOrder_String byNameDescending treeTie
      rockTie).1 (by decide) (by decide),
    ((comparator_strict_on_different_names lexicalOrder_String byNameAscending rockTie
      treeTie).2 (by decide)).1,
    ((comparator_strict_on_different_names lexicalOrder_String byNameAscending rockTie
      treeTie).2 (by decide)).2⟩

end GpuOptimizationHelper
